import Mathlib

/-!
# Response-bot: the responses store and the trigger-matching engine

A shallow embedding of `ResponsesManager` (`src/index.js`, lines 79-151).

* A stored record is a `Row`.  A SQLite row carries the columns `id`, `guild_id`, `name`,
  `trigger`, `response`, `created_at`; a MongoDB document carries `_id`, `guildId`, `name`,
  `trigger`, `response`, `createdAt`.  Both are embedded as the same structure.
* A `Store` is the content of the `responses` table (collection) in insertion order, together
  with the tag `store.type` that selects the branch of every method and the counter from which
  the next `id` is drawn.
* `Date.now()` is an explicit argument `now` of `add`.
* JavaScript strings are embedded as `String`: equality (`===`) is equality of strings and
  `content.includes(trigger)` is "the characters of `trigger` are a contiguous block of the
  characters of `content`".  Strings with unpaired surrogates are outside the embedding.
* `new RegExp(trigger, 'i')` is a parameter (`RegExpEngine`): it either throws or yields an
  object with a `test` method.
* `ORDER BY created_at DESC` / `.sort({ createdAt: -1 })` is a sort by non-increasing
  `createdAt`.  Neither query names a second sort key.  SQLite reads the rows of the guild
  through the index `idx_guild_name` and so returns rows of equal `created_at` in the order of
  their names.  MongoDB leaves the order of documents with equal `createdAt` unspecified; the
  embedding returns them in insertion order, one of the orders it may return.
* The methods are `async`; calls are embedded as running one after the other.
-/

namespace ResponseBot

/-- One stored response (a row of table `responses`, or a document of collection
`responses`). -/
structure Row where
  id : Nat
  guildId : String
  name : String
  trigger : String
  response : String
  createdAt : Nat
deriving DecidableEq, Repr

/-- The tag `store.type` set by `initStorage`: `'local'` (SQLite) or `'mongo'`. -/
inductive StoreType where
  | local
  | mongo
deriving DecidableEq, Repr

/-- The storage handle: its type tag, the stored records in insertion order, and the number of
ids handed out so far (`AUTOINCREMENT`). -/
structure Store where
  type : StoreType
  rows : List Row
  seq : Nat
deriving DecidableEq, Repr

/-- The store right after `initStorage` on a fresh database. -/
def Store.empty (ty : StoreType) : Store := ⟨ty, [], 0⟩

deriving instance DecidableEq for Except

/-- What a call leaves behind: the store after the call and either the returned value or the
message of the `Error` that was thrown. -/
structure Outcome (α : Type) where
  store : Store
  result : Except String α

/-- The filter `guild_id = ? AND name = ?` (`{ guildId, name }`). -/
def keyIs (guildId name : String) (r : Row) : Bool :=
  decide (r.guildId = guildId) && decide (r.name = name)

/-- The filter `guild_id = ?` (`{ guildId }`). -/
def inGuild (guildId : String) (r : Row) : Bool :=
  decide (r.guildId = guildId)

/-- The lookups `this.getByName.get(guildId, name)` and `this.col.findOne({ guildId, name })`: the first
stored record with that key, if any. -/
def getByName (st : Store) (guildId name : String) : Option Row :=
  st.rows.find? (keyIs guildId name)

/-- The message of the error raised by the unique index on `(guild_id, name)`. -/
def uniqueViolation : String := "UNIQUE constraint failed: responses.guild_id, responses.name"

/-- The inserts `this.insert.run(...)` and `this.col.insertOne(...)`: the unique index on
`(guild_id, name)` rejects a second record with the same key; otherwise the record is appended
with a fresh id. -/
def insert (st : Store) (guildId name trigger response : String) (createdAt : Nat) :
    Outcome Unit :=
  if st.rows.any (keyIs guildId name) then
    ⟨st, .error uniqueViolation⟩
  else
    ⟨{ st with rows := st.rows ++ [⟨st.seq + 1, guildId, name, trigger, response, createdAt⟩],
               seq := st.seq + 1 }, .ok ()⟩

/-- Method `ResponsesManager.add`; `now` is the value of `Date.now()`. -/
def add (st : Store) (guildId name trigger response : String) (now : Nat) : Outcome Unit :=
  match st.type with
  | .local =>
    let «exists» := getByName st guildId name
    if «exists».isSome then ⟨st, .error "A response with that name already exists."⟩
    else insert st guildId name trigger response now
  | .mongo =>
    let res := getByName st guildId name
    if res.isSome then ⟨st, .error "A response with that name already exists."⟩
    else insert st guildId name trigger response now

/-- The statement `DELETE FROM responses WHERE guild_id = ? AND name = ?`. -/
def deleteByName (st : Store) (guildId name : String) : Store :=
  { st with rows := st.rows.filter (fun r => !keyIs guildId name r) }

/-- The call `col.deleteOne({ guildId, name })`: removes the first record with the key and
reports `deletedCount`. -/
def deleteOne (st : Store) (guildId name : String) : Store × Nat :=
  ({ st with rows := st.rows.eraseP (keyIs guildId name) },
   if st.rows.any (keyIs guildId name) then 1 else 0)

/-- Method `ResponsesManager.remove`. -/
def remove (st : Store) (guildId name : String) : Outcome Unit :=
  match st.type with
  | .local =>
    let info := getByName st guildId name
    if !info.isSome then ⟨st, .error "No such response."⟩
    else ⟨deleteByName st guildId name, .ok ()⟩
  | .mongo =>
    let result := deleteOne st guildId name
    if result.2 = 0 then ⟨result.1, .error "No such response."⟩
    else ⟨result.1, .ok ()⟩

/-- The assignment `SET trigger = ?, response = ?` (`$set: { trigger, response }`) on one
record. -/
def setFields (trigger response : String) (r : Row) : Row :=
  { r with trigger := trigger, response := response }

/-- The statement `UPDATE responses SET trigger = ?, response = ? WHERE guild_id = ? AND
name = ?`. -/
def updateByName (st : Store) (trigger response guildId name : String) : Store :=
  let rows := st.rows.map
    (fun r => if keyIs guildId name r then setFields trigger response r else r)
  { st with rows := rows }

/-- Rewrites the first record that satisfies `p`. -/
def updateFirst (p : Row → Bool) (f : Row → Row) : List Row → List Row
  | [] => []
  | r :: rs => if p r then f r :: rs else r :: updateFirst p f rs

/-- The call `col.updateOne({ guildId, name }, { $set: { trigger, response } })`: rewrites the
first record with the key and reports `matchedCount`. -/
def updateOne (st : Store) (guildId name trigger response : String) : Store × Nat :=
  ({ st with rows := updateFirst (keyIs guildId name) (setFields trigger response) st.rows },
   if st.rows.any (keyIs guildId name) then 1 else 0)

/-- Method `ResponsesManager.edit`. -/
def edit (st : Store) (guildId name trigger response : String) : Outcome Unit :=
  match st.type with
  | .local =>
    let info := getByName st guildId name
    if !info.isSome then ⟨st, .error "No such response."⟩
    else ⟨updateByName st trigger response guildId name, .ok ()⟩
  | .mongo =>
    let result := updateOne st guildId name trigger response
    if result.2 = 0 then ⟨result.1, .error "No such response."⟩
    else ⟨result.1, .ok ()⟩

/-- The order `created_at DESC`: `a` may stand before `b`. -/
def newerFirst (a b : Row) : Prop := b.createdAt ≤ a.createdAt

instance : DecidableRel newerFirst := fun a b => inferInstanceAs (Decidable (b.createdAt ≤ a.createdAt))

/-- The order of the index `idx_guild_name` within one guild: by name, compared character by
character (the `BINARY` collation): `a` may stand before `b`. -/
def nameOrder (a b : Row) : Prop := ¬ b.name.data < a.name.data

instance : DecidableRel nameOrder := fun a b => inferInstanceAs (Decidable (¬ b.name.data < a.name.data))

/-- Method `ResponsesManager.list`: `SELECT * FROM responses WHERE guild_id = ? ORDER BY created_at
DESC` on the local branch, `col.find({ guildId }).sort({ createdAt: -1 }).toArray()` on the
other.  SQLite reads the rows of the guild through `idx_guild_name`, that is in the order of
their names, and sorts them by `created_at` keeping rows of equal `created_at` in that order.
For MongoDB, which leaves the order of documents of equal `createdAt` open, the documents are
taken in insertion order. -/
def list (st : Store) (guildId : String) : List Row :=
  match st.type with
  | .local =>
    List.insertionSort newerFirst
      (List.insertionSort nameOrder (st.rows.filter (inGuild guildId)))
  | .mongo => List.insertionSort newerFirst (st.rows.filter (inGuild guildId))

/-- The order in which the records of a guild reach the sort by `created_at`: by name on the
local branch, as inserted on the other. -/
def readOrder (ty : StoreType) (rows : List Row) : List Row :=
  match ty with
  | .local => List.insertionSort nameOrder rows
  | .mongo => rows

/-- A compiled regular expression: the object built by `new RegExp(trigger, 'i')`, of which
only the method `test` is used. -/
structure RegExp where
  test : String → Bool

/-- The regular-expression engine of the host: `compile trigger` is `new RegExp(trigger, 'i')`,
which throws (`.error`) on a pattern that is not a regular expression. -/
structure RegExpEngine where
  compile : String → Except String RegExp

/-- The test `content.includes(trigger)`. -/
def includes (content trigger : String) : Bool :=
  decide (trigger.data <:+: content.data)

/-- The `for` loop of `findMatch` over the listed rows.  The `try`/`catch` around `new RegExp`
turns a thrown error into `continue`. -/
def scan (E : RegExpEngine) (content mode : String) : List Row → Except String (Option Row)
  | [] => .ok none
  | r :: rows =>
    let trigger := r.trigger -- `String(r.trigger || '')`, the trigger itself for a string
    if mode = "exact" ∧ content = trigger then .ok (some r)
    else if mode = "includes" ∧ includes content trigger = true then .ok (some r)
    else if mode = "regex" then
      match E.compile trigger with
      | .ok re => if re.test content then .ok (some r) else scan E content mode rows
      | .error _ => scan E content mode rows
    else scan E content mode rows

/-- Method `ResponsesManager.findMatch(guildId, content, mode = 'exact')`; `mode = none` is a call
without the third argument. -/
def findMatch (E : RegExpEngine) (st : Store) (guildId content : String)
    (mode : Option String) : Except String (Option Row) :=
  let mode := mode.getD "exact"
  let rows := list st guildId
  scan E content mode rows

/-- A small engine for evaluating the definitions on concrete inputs: a pattern made of ASCII
letters, digits and spaces only is accepted and searched for as a literal ignoring case, as
`new RegExp(p, 'i').test(s)` does for such a pattern; every other pattern is rejected, as
`new RegExp("(", 'i')` is. -/
def literalEngine : RegExpEngine where
  compile p :=
    if p.data.all (fun c => c.isAlphanum || c = ' ') then
      .ok ⟨fun s => includes ⟨s.data.map Char.toLower⟩ ⟨p.data.map Char.toLower⟩⟩
    else .error "SyntaxError: Invalid regular expression"

/-- A trigger matches `content` under `mode`, in the words of the specification: `exact` is
equality, `includes` is "the text contains the trigger as a substring", `regex` is "the trigger
compiles and the compiled expression matches somewhere in the text". -/
def triggerMatches (E : RegExpEngine) (mode content trigger : String) : Bool :=
  if mode = "exact" then decide (content = trigger)
  else if mode = "includes" then decide (trigger.data <:+: content.data)
  else if mode = "regex" then
    match E.compile trigger with
    | .ok re => re.test content
    | .error _ => false
  else false

/-- The trigger of `r` is a pattern that `new RegExp` accepts. -/
def validPattern (E : RegExpEngine) (r : Row) : Bool :=
  match E.compile r.trigger with
  | .ok _ => true
  | .error _ => false

/-- The unique index on `(guild_id, name)` holds: no two stored records share guild and
name. -/
def UniqueIndex (st : Store) : Prop :=
  st.rows.Pairwise (fun a b => ¬ (a.guildId = b.guildId ∧ a.name = b.name))

/-- A call of one of the three methods that write to the store. -/
inductive Call where
  | add (guildId name trigger response : String) (now : Nat)
  | edit (guildId name trigger response : String)
  | remove (guildId name : String)

/-- Runs one call. -/
def Call.run (st : Store) : Call → Outcome Unit
  | .add g n t r now => ResponseBot.add st g n t r now
  | .edit g n t r => ResponseBot.edit st g n t r
  | .remove g n => ResponseBot.remove st g n

/-- Runs calls one after the other; a call that throws leaves whatever store it left. -/
def runCalls (st : Store) : List Call → Store
  | [] => st
  | c :: cs => runCalls (c.run st).store cs

/-- The store is what some sequence of `add`, `edit` and `remove` calls leaves of the empty
store. -/
def Reachable (st : Store) : Prop :=
  ∃ calls : List Call, runCalls (Store.empty st.type) calls = st

/-- The change `edit` makes to one record: the record with the key gets the new trigger and
response, any other record stays. -/
def editRow (guildId name trigger response : String) (r : Row) : Row :=
  if keyIs guildId name r then setFields trigger response r else r

/-- The record `new` is `old` up to trigger and response, and is `old` itself unless `old` has
the key `(guildId, name)`. -/
def EditFrame (guildId name : String) (old new : Row) : Prop :=
  new.id = old.id ∧ new.guildId = old.guildId ∧ new.name = old.name ∧
    new.createdAt = old.createdAt ∧ (keyIs guildId name old = false → new = old)

/-- Sample store: guild `g1` holds `greet` (trigger `hello`), then `bad` (trigger `(`, not a
regular expression), then `late` (trigger `hello` again); guild `g2` holds `greet`. -/
def demoStore : Store :=
  ⟨.local,
   [⟨1, "g1", "greet", "hello", "Hi there!", 1000⟩,
    ⟨2, "g1", "bad", "(", "oops", 2000⟩,
    ⟨3, "g2", "greet", "hello", "Hi from g2", 2500⟩,
    ⟨4, "g1", "late", "hello", "Hi again!", 3000⟩], 4⟩

/-- Two `add` calls with the same trigger, one after the other, on an empty store, reading the
clock values `now₁` and then `now₂`. -/
def twoAdds (ty : StoreType) (now₁ now₂ : Nat) : Store :=
  (add (add (Store.empty ty) "g1" "first" "hello" "one" now₁).store
    "g1" "second" "hello" "two" now₂).store

/-- A call of one of the five methods of the manager. -/
inductive Request where
  | add (guildId name trigger response : String) (now : Nat)
  | edit (guildId name trigger response : String)
  | remove (guildId name : String)
  | list (guildId : String)
  | findMatch (guildId content : String) (mode : Option String)

/-- The fields of a record that both kinds of store name alike and that the callers read:
name, trigger and response. -/
def Row.shown (r : Row) : String × String × String := (r.name, r.trigger, r.response)

/-- What the caller of a method observes: normal completion, the message of the thrown `Error`,
the listed records, or the matched record (`none` for `null`). -/
inductive Reply where
  | done
  | threw (message : String)
  | rows (records : List (String × String × String))
  | found (record : Option (String × String × String))
deriving DecidableEq, Repr

/-- The reply of a method that returns nothing. -/
def Reply.ofResult : Except String Unit → Reply
  | .ok _ => .done
  | .error e => .threw e

/-- Runs one call of the manager: the store it leaves and what the caller observes. -/
def Request.run (E : RegExpEngine) (st : Store) : Request → Store × Reply
  | .add g n t r now =>
    let o := ResponseBot.add st g n t r now
    (o.store, Reply.ofResult o.result)
  | .edit g n t r =>
    let o := ResponseBot.edit st g n t r
    (o.store, Reply.ofResult o.result)
  | .remove g n =>
    let o := ResponseBot.remove st g n
    (o.store, Reply.ofResult o.result)
  | .list g => (st, .rows ((ResponseBot.list st g).map Row.shown))
  | .findMatch g content mode =>
    match ResponseBot.findMatch E st g content mode with
    | .ok r => (st, .found (r.map Row.shown))
    | .error e => (st, .threw e)

/-- Runs calls one after the other and collects what the caller observes of each. -/
def serve (E : RegExpEngine) (st : Store) : List Request → List Reply
  | [] => []
  | q :: qs => (q.run E st).2 :: serve E (q.run E st).1 qs

/-- The call is one of the three that write to the store. -/
def Request.isWrite : Request → Bool
  | .add _ _ _ _ _ => true
  | .edit _ _ _ _ => true
  | .remove _ _ => true
  | .list _ => false
  | .findMatch _ _ _ => false

/-- The clock readings (`Date.now()`) taken by a sequence of calls, one for each `add`, each
with the guild the `add` is addressed to. -/
def clockReadings : List Request → List (String × Nat)
  | [] => []
  | .add g _ _ _ now :: qs => (g, now) :: clockReadings qs
  | .edit _ _ _ _ :: qs => clockReadings qs
  | .remove _ _ :: qs => clockReadings qs
  | .list _ :: qs => clockReadings qs
  | .findMatch _ _ _ :: qs => clockReadings qs

/-- The guild and createdAt of every stored record. -/
def stamps (st : Store) : List (String × Nat) :=
  st.rows.map (fun r => (r.guildId, r.createdAt))

/-- A session in which two records with the same trigger are added to one guild at the same
clock reading, `zeta` before `alpha`, and the guild is then listed and searched. -/
def tieRequests : List Request :=
  [.add "g1" "zeta" "hello" "Z" 1000,
   .add "g1" "alpha" "hello" "A" 1000,
   .list "g1",
   .findMatch "g1" "hello" (some "exact")]

/-- A sample session: two adds, a duplicate add, an edit, a listing, two searches, a remove, a
second remove of the same name, and a last search. -/
def demoRequests : List Request :=
  [.add "g1" "greet" "hello" "Hi there!" 1000,
   .add "g1" "loud" "hello" "HI!" 2000,
   .add "g1" "greet" "other" "dup" 3000,
   .edit "g1" "greet" "hello" "Hi again!",
   .list "g1",
   .findMatch "g1" "hello" (some "exact"),
   .findMatch "g1" "HELLO there" (some "regex"),
   .remove "g1" "loud",
   .remove "g1" "loud",
   .findMatch "g1" "hello" none]

/-- The store after `add('g1', 'greet', 'hello', 'Hi there!')` on an empty store, with the
clock reading `now`. -/
def greetStore (ty : StoreType) (now : Nat) : Store :=
  (add (Store.empty ty) "g1" "greet" "hello" "Hi there!" now).store

/-- The constant `MATCH_MODE = config.matchMode || 'exact'` that the dispatch loop passes to
`findMatch`: the configured mode, or `'exact'` when the configuration has none or an empty
one. -/
def MATCH_MODE (matchMode : Option String) : String :=
  match matchMode with
  | some s => if s = "" then "exact" else s
  | none => "exact"

instance : IsTotal Row newerFirst := ⟨fun a b => Nat.le_total b.createdAt a.createdAt⟩

instance : IsTrans Row newerFirst := ⟨fun _ _ _ hab hbc => Nat.le_trans hbc hab⟩

/-! ## Lemmas on the listing -/

theorem list_eq (st : Store) (g : String) :
    list st g
      = List.insertionSort newerFirst (readOrder st.type (st.rows.filter (inGuild g))) := by
  unfold list readOrder
  cases st.type <;> rfl

theorem nameOrder_iff (a b : Row) : nameOrder a b ↔ a.name ≤ b.name := by
  unfold nameOrder
  rw [String.le_iff_toList_le]
  exact not_lt

theorem list_equal_clock_local :
    (list (runCalls (Store.empty .local)
        [.add "g1" "m" "hi" "1" 1000, .add "g1" "z" "hi" "2" 1000,
         .add "g1" "a" "hi" "3" 1000, .add "g1" "k" "hi" "4" 1000]) "g1").map Row.name
      = ["a", "k", "m", "z"] := by
  decide

theorem list_equal_clock_mongo :
    (list (runCalls (Store.empty .mongo)
        [.add "g1" "m" "hi" "1" 1000, .add "g1" "z" "hi" "2" 1000,
         .add "g1" "a" "hi" "3" 1000, .add "g1" "k" "hi" "4" 1000]) "g1").map Row.name
      = ["m", "z", "a", "k"] := by
  decide

theorem readOrder_perm (ty : StoreType) (l : List Row) : (readOrder ty l).Perm l := by
  cases ty
  · exact List.perm_insertionSort _ _
  · exact List.Perm.refl _

theorem list_perm (st : Store) (g : String) :
    (list st g).Perm (st.rows.filter (inGuild g)) := by
  rw [list_eq]
  exact (List.perm_insertionSort _ _).trans (readOrder_perm _ _)

theorem list_sorted (st : Store) (g : String) : (list st g).Pairwise newerFirst := by
  rw [list_eq]
  exact List.sorted_insertionSort _ _

theorem mem_list {st : Store} {g : String} {r : Row} :
    r ∈ list st g ↔ r ∈ st.rows ∧ r.guildId = g := by
  rw [(list_perm st g).mem_iff, List.mem_filter]
  simp [inGuild]

/-! ## Lemmas on the scan -/

theorem scan_eq_find (E : RegExpEngine) (content mode : String) (rows : List Row) :
    scan E content mode rows
      = .ok (rows.find? (fun r => triggerMatches E mode content r.trigger)) := by
  induction rows with
  | nil => rfl
  | cons r rows ih =>
    unfold scan
    simp only [List.find?_cons, triggerMatches, includes]
    by_cases h1 : mode = "exact"
    · subst h1
      by_cases h2 : content = r.trigger
      · simp [h2]
      · simp [h2, ih, triggerMatches]
    · by_cases h3 : mode = "includes"
      · subst h3
        by_cases h4 : r.trigger.data <:+: content.data
        · simp [h4]
        · simp [h4, ih, triggerMatches]
      · by_cases h5 : mode = "regex"
        · subst h5
          cases hc : E.compile r.trigger with
          | error e => simp [ih, triggerMatches]
          | ok re =>
            by_cases h6 : re.test content = true
            · simp [h6]
            · simp [h6, ih, triggerMatches]
        · simp [h1, h3, h5, ih, triggerMatches]

theorem findMatch_eq_find (E : RegExpEngine) (st : Store) (g content mode : String) :
    findMatch E st g content (some mode)
      = .ok ((list st g).find? (fun r => triggerMatches E mode content r.trigger)) := by
  simp [findMatch, scan_eq_find]

theorem find?_filter_of_imp {p q : Row → Bool} (h : ∀ x, p x = true → q x = true)
    (l : List Row) : (l.filter q).find? p = l.find? p := by
  induction l with
  | nil => rfl
  | cons x xs ih =>
    by_cases hq : q x = true
    · rw [List.filter_cons_of_pos hq, List.find?_cons, List.find?_cons, ih]
    · have hp : p x = false := by
        cases hpx : p x with
        | false => rfl
        | true => exact absurd (h x hpx) hq
      rw [List.filter_cons_of_neg hq, List.find?_cons, hp, ih]

theorem validPattern_of_matches {E : RegExpEngine} {content : String} (x : Row)
    (h : triggerMatches E "regex" content x.trigger = true) : validPattern E x = true := by
  unfold triggerMatches at h
  unfold validPattern
  cases hc : E.compile x.trigger with
  | error e => simp [hc] at h
  | ok re => rfl

theorem scan_filter_valid (E : RegExpEngine) (content : String) (rows : List Row) :
    scan E content "regex" rows = scan E content "regex" (rows.filter (validPattern E)) := by
  rw [scan_eq_find, scan_eq_find, find?_filter_of_imp validPattern_of_matches]

theorem findMatch_some_iff (E : RegExpEngine) (st : Store) (g content mode : String) :
    (∃ r, findMatch E st g content (some mode) = .ok (some r)) ↔
      ∃ x ∈ st.rows, x.guildId = g ∧ triggerMatches E mode content x.trigger = true := by
  rw [findMatch_eq_find]
  constructor
  · rintro ⟨r, hr⟩
    have hr' : (list st g).find? (fun r => triggerMatches E mode content r.trigger) = some r := by
      injection hr
    have hm := mem_list.mp (List.mem_of_find?_eq_some hr')
    exact ⟨r, hm.1, hm.2, (List.find?_eq_some.mp hr').1⟩
  · rintro ⟨x, hx, hg, hm⟩
    cases hf : (list st g).find? (fun r => triggerMatches E mode content r.trigger) with
    | some r => exact ⟨r, rfl⟩
    | none =>
      have := List.find?_eq_none.mp hf x (mem_list.mpr ⟨hx, hg⟩)
      exact absurd hm this

theorem findMatch_some_spec (E : RegExpEngine) (st : Store) (g content mode : String) (r : Row)
    (h : findMatch E st g content (some mode) = .ok (some r)) :
    r ∈ st.rows ∧ r.guildId = g ∧ triggerMatches E mode content r.trigger = true := by
  rw [findMatch_eq_find] at h
  have hr' : (list st g).find? (fun r => triggerMatches E mode content r.trigger) = some r := by
    injection h
  have hm := mem_list.mp (List.mem_of_find?_eq_some hr')
  exact ⟨hm.1, hm.2, (List.find?_eq_some.mp hr').1⟩

theorem triggerMatches_exact (E : RegExpEngine) (content trigger : String) :
    triggerMatches E "exact" content trigger = true ↔ trigger = content := by
  simp [triggerMatches, eq_comm]

theorem triggerMatches_includes (E : RegExpEngine) (content trigger : String) :
    triggerMatches E "includes" content trigger = true ↔ trigger.data <:+: content.data := by
  have h : ¬ ("includes" = "exact") := by decide
  simp [triggerMatches, h]

theorem triggerMatches_regex (E : RegExpEngine) (content trigger : String) :
    triggerMatches E "regex" content trigger = true ↔
      ∃ re, E.compile trigger = .ok re ∧ re.test content = true := by
  have h1 : ¬ ("regex" = "exact") := by decide
  have h2 : ¬ ("regex" = "includes") := by decide
  unfold triggerMatches
  cases hc : E.compile trigger with
  | error e => simp [h1, h2]
  | ok re => simp [h1, h2]

/-! ## Lemmas on the writes -/

theorem getByName_isSome_iff {st : Store} {g n : String} :
    (getByName st g n).isSome = true ↔ ∃ x ∈ st.rows, x.guildId = g ∧ x.name = n := by
  simp [getByName, List.find?_isSome, keyIs]

theorem any_keyIs_iff {rows : List Row} {g n : String} :
    rows.any (keyIs g n) = true ↔ ∃ x ∈ rows, x.guildId = g ∧ x.name = n := by
  simp [List.any_eq_true, keyIs]

theorem not_any_keyIs {rows : List Row} {g n : String}
    (h : ¬ ∃ x ∈ rows, x.guildId = g ∧ x.name = n) : rows.any (keyIs g n) = false := by
  cases ha : rows.any (keyIs g n) with
  | false => rfl
  | true => exact absurd (any_keyIs_iff.mp ha) h

theorem getByName_eq_none {st : Store} {g n : String}
    (h : ¬ ∃ x ∈ st.rows, x.guildId = g ∧ x.name = n) : getByName st g n = none := by
  cases hg : getByName st g n with
  | none => rfl
  | some x =>
    have : (getByName st g n).isSome = true := by simp [hg]
    exact absurd (getByName_isSome_iff.mp this) h

theorem keyIs_false_of_absent {rows : List Row} {g n : String}
    (h : ¬ ∃ x ∈ rows, x.guildId = g ∧ x.name = n) : ∀ a, a ∈ rows → ¬ keyIs g n a = true := by
  intro a ha hk
  apply h
  refine ⟨a, ha, ?_⟩
  simpa [keyIs] using hk

theorem add_absent (st : Store) (g n t r : String) (now : Nat)
    (h : ¬ ∃ x ∈ st.rows, x.guildId = g ∧ x.name = n) :
    (add st g n t r now).result = .ok () ∧
    (add st g n t r now).store
      = { st with rows := st.rows ++ [⟨st.seq + 1, g, n, t, r, now⟩], seq := st.seq + 1 } := by
  have h1 := getByName_eq_none h
  have h2 := not_any_keyIs h
  unfold add insert
  cases st.type <;> simp [h1, h2]

theorem add_ok_absent (st : Store) (g n t r : String) (now : Nat)
    (h : (add st g n t r now).result = .ok ()) :
    ¬ ∃ x ∈ st.rows, x.guildId = g ∧ x.name = n := by
  intro hex
  have hs : (getByName st g n).isSome = true := getByName_isSome_iff.mpr hex
  unfold add at h
  cases hty : st.type <;> simp [hty, hs] at h

theorem updateFirst_of_forall_not {p : Row → Bool} {f : Row → Row} {l : List Row}
    (h : ∀ a, a ∈ l → ¬ p a = true) : updateFirst p f l = l := by
  induction l with
  | nil => rfl
  | cons x xs ih =>
    have hx : ¬ p x = true := h x (List.mem_cons_self x xs)
    have hxs : ∀ a, a ∈ xs → ¬ p a = true := fun a ha => h a (List.mem_cons_of_mem x ha)
    simp [updateFirst, hx, ih hxs]

theorem remove_absent (st : Store) (g n : String)
    (h : ¬ ∃ x ∈ st.rows, x.guildId = g ∧ x.name = n) :
    (remove st g n).result = .error "No such response." ∧ (remove st g n).store = st := by
  have h1 := getByName_eq_none h
  have h2 := not_any_keyIs h
  have h3 : st.rows.eraseP (keyIs g n) = st.rows :=
    List.eraseP_of_forall_not (keyIs_false_of_absent h)
  obtain ⟨ty, rows, seq⟩ := st
  cases ty <;> simp_all [remove, deleteOne]

theorem edit_absent (st : Store) (g n t r : String)
    (h : ¬ ∃ x ∈ st.rows, x.guildId = g ∧ x.name = n) :
    (edit st g n t r).result = .error "No such response." ∧ (edit st g n t r).store = st := by
  have h1 := getByName_eq_none h
  have h2 := not_any_keyIs h
  have h3 : updateFirst (keyIs g n) (setFields t r) st.rows = st.rows :=
    updateFirst_of_forall_not (keyIs_false_of_absent h)
  obtain ⟨ty, rows, seq⟩ := st
  cases ty <;> simp_all [edit, updateOne]

theorem filter_not_key_eq_eraseP (g n : String) {l : List Row}
    (hu : l.Pairwise (fun a b => ¬ (a.guildId = b.guildId ∧ a.name = b.name))) :
    l.filter (fun r => !keyIs g n r) = l.eraseP (keyIs g n) := by
  induction l with
  | nil => rfl
  | cons x xs ih =>
    rw [List.pairwise_cons] at hu
    by_cases hx : keyIs g n x = true
    · have hrest : xs.filter (fun r => !keyIs g n r) = xs := by
        rw [List.filter_eq_self]
        intro a ha
        have hne := hu.1 a ha
        simp only [keyIs, Bool.and_eq_true, decide_eq_true_eq] at hx
        simp only [keyIs, Bool.not_eq_true', Bool.and_eq_false_imp, decide_eq_true_eq,
          decide_eq_false_iff_not]
        intro hg hn
        exact hne ⟨hx.1.trans hg.symm, hx.2.trans hn.symm⟩
      simp [List.filter_cons, List.eraseP_cons, hx, hrest]
    · simp [List.filter_cons, List.eraseP_cons, hx, ih hu.2]

theorem updateFirst_eq_map (g n t r : String) {l : List Row}
    (hu : l.Pairwise (fun a b => ¬ (a.guildId = b.guildId ∧ a.name = b.name))) :
    updateFirst (keyIs g n) (setFields t r) l = l.map (editRow g n t r) := by
  induction l with
  | nil => rfl
  | cons x xs ih =>
    rw [List.pairwise_cons] at hu
    by_cases hx : keyIs g n x = true
    · have hrest : xs.map (editRow g n t r) = xs := by
        conv_rhs => rw [← List.map_id xs]
        apply List.map_congr_left
        intro a ha
        have hne := hu.1 a ha
        have hka : keyIs g n a = false := by
          simp only [keyIs, Bool.and_eq_true, decide_eq_true_eq] at hx
          simp only [keyIs, Bool.and_eq_false_imp, decide_eq_true_eq, decide_eq_false_iff_not]
          intro hg hn
          exact hne ⟨hx.1.trans hg.symm, hx.2.trans hn.symm⟩
        simp [editRow, hka]
      simp [updateFirst, hx, hrest, editRow]
    · simp [updateFirst, hx, ih hu.2, editRow]

theorem remove_present (st : Store) (g n : String) (hu : UniqueIndex st)
    (h : ∃ x ∈ st.rows, x.guildId = g ∧ x.name = n) :
    (remove st g n).result = .ok () ∧
    (remove st g n).store = { st with rows := st.rows.eraseP (keyIs g n) } := by
  have h1 := getByName_isSome_iff.mpr h
  have h2 := any_keyIs_iff.mpr h
  have h3 := filter_not_key_eq_eraseP g n hu
  unfold remove deleteOne deleteByName
  cases st.type <;> simp [h1, h2, h3]

theorem edit_present (st : Store) (g n t r : String) (hu : UniqueIndex st)
    (h : ∃ x ∈ st.rows, x.guildId = g ∧ x.name = n) :
    (edit st g n t r).result = .ok () ∧
    (edit st g n t r).store = { st with rows := st.rows.map (editRow g n t r) } := by
  have h1 := getByName_isSome_iff.mpr h
  have h2 := any_keyIs_iff.mpr h
  have h3 := updateFirst_eq_map g n t r hu
  unfold edit updateOne updateByName
  cases st.type <;> simp [h1, h2, h3, editRow]

/-! ## The unique index is an invariant -/

theorem unique_iff_nodup_keys (l : List Row) :
    l.Pairwise (fun a b => ¬ (a.guildId = b.guildId ∧ a.name = b.name)) ↔
      (l.map (fun r => (r.guildId, r.name))).Nodup := by
  simp [List.Nodup, List.pairwise_map]

theorem EditFrame.refl (g n : String) (a : Row) : EditFrame g n a a :=
  ⟨rfl, rfl, rfl, rfl, fun _ => rfl⟩

theorem editRow_frame (g n t r : String) (a : Row) : EditFrame g n a (editRow g n t r a) := by
  unfold editRow
  by_cases hk : keyIs g n a = true
  · simp [hk, EditFrame, setFields]
  · simp [hk, EditFrame.refl]

theorem forall₂_refl_frame (g n : String) (l : List Row) : List.Forall₂ (EditFrame g n) l l := by
  induction l with
  | nil => exact List.Forall₂.nil
  | cons x xs ih => exact List.Forall₂.cons (EditFrame.refl g n x) ih

theorem map_editRow_frame (g n t r : String) (l : List Row) :
    List.Forall₂ (EditFrame g n) l (l.map (editRow g n t r)) := by
  induction l with
  | nil => exact List.Forall₂.nil
  | cons x xs ih => exact List.Forall₂.cons (editRow_frame g n t r x) ih

theorem updateFirst_frame (g n t r : String) (l : List Row) :
    List.Forall₂ (EditFrame g n) l (updateFirst (keyIs g n) (setFields t r) l) := by
  induction l with
  | nil => exact List.Forall₂.nil
  | cons x xs ih =>
    by_cases hk : keyIs g n x = true
    · have hx : EditFrame g n x (setFields t r x) := by simp [EditFrame, setFields, hk]
      simp only [updateFirst, hk, if_true]
      exact List.Forall₂.cons hx (forall₂_refl_frame g n xs)
    · simp only [updateFirst, hk]
      exact List.Forall₂.cons (EditFrame.refl g n x) ih

theorem edit_rows_frame (st : Store) (g n t r : String) :
    List.Forall₂ (EditFrame g n) st.rows (edit st g n t r).store.rows := by
  unfold edit
  cases st.type
  · by_cases hi : (getByName st g n).isSome = true
    · simp only [hi, Bool.not_true, updateByName]
      exact map_editRow_frame g n t r st.rows
    · simp only [hi]
      exact forall₂_refl_frame g n st.rows
  · by_cases hc : (updateOne st g n t r).2 = 0
    · simp only [hc, if_true]
      exact updateFirst_frame g n t r st.rows
    · simp only [hc, if_false]
      exact updateFirst_frame g n t r st.rows

theorem frame_keys {g n : String} {l l' : List Row} (h : List.Forall₂ (EditFrame g n) l l') :
    l'.map (fun r => (r.guildId, r.name)) = l.map (fun r => (r.guildId, r.name)) := by
  induction h with
  | nil => rfl
  | cons hab _ ih => simp [List.map_cons, ih, hab.2.1, hab.2.2.1]

theorem remove_rows_sublist (st : Store) (g n : String) :
    (remove st g n).store.rows.Sublist st.rows := by
  unfold remove
  cases st.type
  · by_cases hi : (getByName st g n).isSome = true
    · simp only [hi, Bool.not_true, deleteByName]
      exact List.filter_sublist _
    · simp only [hi]
      exact List.Sublist.refl _
  · by_cases hc : (deleteOne st g n).2 = 0
    · simp only [hc, if_true]
      exact List.eraseP_sublist _
    · simp only [hc, if_false]
      exact List.eraseP_sublist _

theorem add_unique (st : Store) (g n t r : String) (now : Nat) (hu : UniqueIndex st) :
    UniqueIndex (add st g n t r now).store := by
  by_cases h : ∃ x ∈ st.rows, x.guildId = g ∧ x.name = n
  · have hs : (getByName st g n).isSome = true := getByName_isSome_iff.mpr h
    have : (add st g n t r now).store = st := by
      unfold add
      cases st.type <;> simp [hs]
    rw [this]
    exact hu
  · rw [(add_absent st g n t r now h).2]
    unfold UniqueIndex at hu ⊢
    rw [List.pairwise_append]
    refine ⟨hu, List.pairwise_singleton _ _, ?_⟩
    intro a ha b hb hab
    rw [List.mem_singleton] at hb
    subst hb
    exact h ⟨a, ha, hab.1, hab.2⟩

theorem edit_unique (st : Store) (g n t r : String) (hu : UniqueIndex st) :
    UniqueIndex (edit st g n t r).store := by
  unfold UniqueIndex at hu ⊢
  rw [unique_iff_nodup_keys] at hu ⊢
  rw [frame_keys (edit_rows_frame st g n t r)]
  exact hu

theorem remove_unique (st : Store) (g n : String) (hu : UniqueIndex st) :
    UniqueIndex (remove st g n).store :=
  List.Pairwise.sublist (remove_rows_sublist st g n) hu

theorem add_type (st : Store) (g n t r : String) (now : Nat) :
    (add st g n t r now).store.type = st.type := by
  obtain ⟨ty, rows, seq⟩ := st
  unfold add insert
  cases ty <;> simp only <;> split <;> (try split) <;> rfl

theorem edit_type (st : Store) (g n t r : String) :
    (edit st g n t r).store.type = st.type := by
  obtain ⟨ty, rows, seq⟩ := st
  unfold edit updateOne updateByName
  cases ty <;> simp only <;> split <;> rfl

theorem remove_type (st : Store) (g n : String) :
    (remove st g n).store.type = st.type := by
  obtain ⟨ty, rows, seq⟩ := st
  unfold remove deleteOne deleteByName
  cases ty <;> simp only <;> split <;> rfl

theorem run_unique (st : Store) (c : Call) (hu : UniqueIndex st) :
    UniqueIndex (c.run st).store := by
  cases c with
  | add g n t r now => exact add_unique st g n t r now hu
  | edit g n t r => exact edit_unique st g n t r hu
  | remove g n => exact remove_unique st g n hu

theorem runCalls_unique (calls : List Call) :
    ∀ st : Store, UniqueIndex st → UniqueIndex (runCalls st calls) := by
  induction calls with
  | nil => intro st hu; exact hu
  | cons c cs ih => intro st hu; exact ih _ (run_unique st c hu)

theorem runCalls_append (st : Store) (cs ds : List Call) :
    runCalls st (cs ++ ds) = runCalls (runCalls st cs) ds := by
  induction cs generalizing st with
  | nil => rfl
  | cons c cs ih => exact ih _

theorem reachable_unique {st : Store} (h : Reachable st) : UniqueIndex st := by
  obtain ⟨calls, hc⟩ := h
  rw [← hc]
  exact runCalls_unique calls _ List.Pairwise.nil

theorem filter_key_absent {rows : List Row} {g n : String}
    (h : ¬ ∃ x ∈ rows, x.guildId = g ∧ x.name = n) :
    (rows.filter (inGuild g)).filter (fun x => decide (x.name = n)) = [] := by
  rw [List.filter_filter, List.filter_eq_nil_iff]
  intro a ha hk
  apply h
  refine ⟨a, ha, ?_⟩
  simpa [inGuild, and_comm] using hk

theorem list_after_add (st : Store) (g n t r : String) (now : Nat)
    (h : ¬ ∃ x ∈ st.rows, x.guildId = g ∧ x.name = n) :
    (list (add st g n t r now).store g).filter (fun x => decide (x.name = n))
      = [⟨st.seq + 1, g, n, t, r, now⟩] := by
  have hp := (list_perm (add st g n t r now).store g).filter (fun x => decide (x.name = n))
  rw [(add_absent st g n t r now h).2] at hp ⊢
  simp only [List.filter_append] at hp
  rw [filter_key_absent h] at hp
  simpa [List.filter_cons, inGuild] using hp

theorem getByName_after_add (st : Store) (g n t r : String) (now : Nat)
    (h : ¬ ∃ x ∈ st.rows, x.guildId = g ∧ x.name = n) :
    getByName (add st g n t r now).store g n = some ⟨st.seq + 1, g, n, t, r, now⟩ := by
  have h1 : st.rows.find? (keyIs g n) = none := getByName_eq_none h
  rw [(add_absent st g n t r now h).2]
  simp [getByName, List.find?_append, h1, keyIs]

/-! ## The listing after an edit -/

theorem orderedInsert_frame {g n : String} {a a' : Row} (haa : EditFrame g n a a')
    {l l' : List Row} (h : List.Forall₂ (EditFrame g n) l l') :
    List.Forall₂ (EditFrame g n) (List.orderedInsert newerFirst a l)
      (List.orderedInsert newerFirst a' l') := by
  induction h with
  | nil => exact List.Forall₂.cons haa List.Forall₂.nil
  | @cons b b' m m' hbb hmm ih =>
    have hiff : newerFirst a b ↔ newerFirst a' b' := by
      unfold newerFirst
      rw [haa.2.2.2.1, hbb.2.2.2.1]
    by_cases hr : newerFirst a b
    · have hr' : newerFirst a' b' := hiff.mp hr
      simp only [List.orderedInsert, hr, hr', if_true]
      exact List.Forall₂.cons haa (List.Forall₂.cons hbb hmm)
    · have hr' : ¬ newerFirst a' b' := fun h' => hr (hiff.mpr h')
      simp only [List.orderedInsert, hr, hr', if_false]
      exact List.Forall₂.cons hbb ih

theorem insertionSort_frame {g n : String} {l l' : List Row}
    (h : List.Forall₂ (EditFrame g n) l l') :
    List.Forall₂ (EditFrame g n) (List.insertionSort newerFirst l)
      (List.insertionSort newerFirst l') := by
  induction h with
  | nil => exact List.Forall₂.nil
  | cons hab _ ih => exact orderedInsert_frame hab ih

theorem filter_frame {g n : String} (g' : String) {l l' : List Row}
    (h : List.Forall₂ (EditFrame g n) l l') :
    List.Forall₂ (EditFrame g n) (l.filter (inGuild g')) (l'.filter (inGuild g')) := by
  induction h with
  | nil => exact List.Forall₂.nil
  | @cons a a' m m' hab _ ih =>
    have hg : inGuild g' a' = inGuild g' a := by simp [inGuild, hab.2.1]
    by_cases hk : inGuild g' a = true
    · rw [List.filter_cons_of_pos hk, List.filter_cons_of_pos (hg.trans hk)]
      exact List.Forall₂.cons hab ih
    · have hk' : ¬ inGuild g' a' = true := by rw [hg]; exact hk
      rw [List.filter_cons_of_neg hk, List.filter_cons_of_neg hk']
      exact ih

theorem orderedInsert_name_frame {g n : String} {a a' : Row} (haa : EditFrame g n a a')
    {l l' : List Row} (h : List.Forall₂ (EditFrame g n) l l') :
    List.Forall₂ (EditFrame g n) (List.orderedInsert nameOrder a l)
      (List.orderedInsert nameOrder a' l') := by
  induction h with
  | nil => exact List.Forall₂.cons haa List.Forall₂.nil
  | @cons b b' m m' hbb hmm ih =>
    have hiff : nameOrder a b ↔ nameOrder a' b' := by
      unfold nameOrder
      rw [haa.2.2.1, hbb.2.2.1]
    by_cases hr : nameOrder a b
    · have hr' : nameOrder a' b' := hiff.mp hr
      simp only [List.orderedInsert, hr, hr', if_true]
      exact List.Forall₂.cons haa (List.Forall₂.cons hbb hmm)
    · have hr' : ¬ nameOrder a' b' := fun h' => hr (hiff.mpr h')
      simp only [List.orderedInsert, hr, hr', if_false]
      exact List.Forall₂.cons hbb ih

theorem readOrder_frame {g n : String} (ty : StoreType) {l l' : List Row}
    (h : List.Forall₂ (EditFrame g n) l l') :
    List.Forall₂ (EditFrame g n) (readOrder ty l) (readOrder ty l') := by
  cases ty
  · simp only [readOrder]
    induction h with
    | nil => exact List.Forall₂.nil
    | cons hab _ ih => exact orderedInsert_name_frame hab ih
  · exact h

theorem list_frame {g n : String} (g' : String) {st st' : Store} (hty : st'.type = st.type)
    (h : List.Forall₂ (EditFrame g n) st.rows st'.rows) :
    List.Forall₂ (EditFrame g n) (list st g') (list st' g') := by
  rw [list_eq, list_eq, hty]
  exact insertionSort_frame (readOrder_frame st.type (filter_frame g' h))

theorem keyIs_setFields (g n t r : String) (x : Row) :
    keyIs g n (setFields t r x) = keyIs g n x := rfl

theorem find?_map_editRow (g n t r : String) (l : List Row) :
    (l.map (editRow g n t r)).find? (keyIs g n)
      = (l.find? (keyIs g n)).map (setFields t r) := by
  induction l with
  | nil => rfl
  | cons x xs ih =>
    by_cases hk : keyIs g n x = true
    · simp [List.find?_cons, editRow, hk, keyIs_setFields]
    · simp [List.find?_cons, editRow, hk, ih]

theorem find?_updateFirst (g n t r : String) (l : List Row) :
    (updateFirst (keyIs g n) (setFields t r) l).find? (keyIs g n)
      = (l.find? (keyIs g n)).map (setFields t r) := by
  induction l with
  | nil => rfl
  | cons x xs ih =>
    by_cases hk : keyIs g n x = true
    · simp [List.find?_cons, updateFirst, hk, keyIs_setFields]
    · simp [List.find?_cons, updateFirst, hk, ih]

theorem getByName_after_edit (st : Store) (g n t r : String)
    (h : ∃ x ∈ st.rows, x.guildId = g ∧ x.name = n) :
    getByName (edit st g n t r).store g n = (getByName st g n).map (setFields t r) := by
  have h1 := getByName_isSome_iff.mpr h
  have h2 := any_keyIs_iff.mpr h
  unfold edit updateOne updateByName
  cases st.type
  · simp only [h1, Bool.not_true]
    exact find?_map_editRow g n t r st.rows
  · simp only [h2, if_true]
    exact find?_updateFirst g n t r st.rows

theorem edit_result_present (st : Store) (g n t r : String)
    (h : ∃ x ∈ st.rows, x.guildId = g ∧ x.name = n) :
    (edit st g n t r).result = .ok () ∧ (edit st g n t r).store.seq = st.seq := by
  have h1 := getByName_isSome_iff.mpr h
  have h2 := any_keyIs_iff.mpr h
  unfold edit updateOne updateByName
  cases st.type <;> simp [h1, h2]

theorem list_map_editRow (st : Store) (g n t r g' : String) :
    list { st with rows := st.rows.map (editRow g n t r) } g'
      = (list st g').map (editRow g n t r) := by
  have hfr : ∀ a, EditFrame g n a (editRow g n t r a) := editRow_frame g n t r
  have hcomp : (inGuild g' ∘ editRow g n t r) = inGuild g' := by
    funext a
    simp [inGuild, (hfr a).2.1]
  have hread : ∀ l : List Row,
      readOrder st.type (l.map (editRow g n t r)) = (readOrder st.type l).map (editRow g n t r) := by
    intro l
    cases st.type
    · simp only [readOrder]
      symm
      apply List.map_insertionSort
      intro a _ b _
      unfold nameOrder
      rw [(hfr a).2.2.1, (hfr b).2.2.1]
    · rfl
  rw [list_eq, list_eq]
  simp only
  rw [List.filter_map, hcomp, hread]
  symm
  apply List.map_insertionSort
  intro a _ b _
  unfold newerFirst
  rw [(hfr a).2.2.2.1, (hfr b).2.2.2.1]

/-! ## Two records with the same trigger -/

theorem find_newer_of_two {p : Row → Bool} {l : List Row} (hs : l.Pairwise newerFirst)
    {a b : Row} (hb : b ∈ l) (hpb : p b = true) (hnewer : a.createdAt < b.createdAt)
    (hothers : ∀ x ∈ l, x ≠ a → x ≠ b → p x = false) : l.find? p = some b := by
  cases hf : l.find? p with
  | none =>
    have := List.find?_eq_none.mp hf b hb
    exact absurd hpb this
  | some x =>
    obtain ⟨hpx, before, after, hl, hbefore⟩ := List.find?_eq_some.mp hf
    have hxl : x ∈ l := List.mem_of_find?_eq_some hf
    by_cases hxb : x = b
    · rw [hxb]
    · by_cases hxa : x = a
      · subst hxa
        exfalso
        rw [hl] at hb hs
        rcases List.mem_append.mp hb with hin | hin
        · have := hbefore b hin
          simp [hpb] at this
        · rcases List.mem_cons.mp hin with heq | hin'
          · exact hxb heq.symm
          · have hrel := (List.pairwise_cons.mp (List.pairwise_append.mp hs).2.1).1 b hin'
            unfold newerFirst at hrel
            omega
      · have := hothers x hxl hxa hxb
        rw [this] at hpx
        cases hpx

/-! ## Writes to one guild seen from another -/

theorem inGuild_of_key {g g' n : String} (hne : g ≠ g') {x : Row}
    (hk : keyIs g n x = true) : inGuild g' x = false := by
  simp only [keyIs, Bool.and_eq_true, decide_eq_true_eq] at hk
  simp only [inGuild, decide_eq_false_iff_not]
  intro hx
  exact hne (hk.1.symm.trans hx)

theorem filter_inGuild_eraseP {g g' : String} (n : String) (hne : g ≠ g') (l : List Row) :
    (l.eraseP (keyIs g n)).filter (inGuild g') = l.filter (inGuild g') := by
  induction l with
  | nil => rfl
  | cons x xs ih =>
    by_cases hk : keyIs g n x = true
    · have hx : inGuild g' x = false := inGuild_of_key hne hk
      simp [List.eraseP_cons, hk, List.filter_cons, hx]
    · simp [List.eraseP_cons, hk, List.filter_cons, ih]

theorem filter_inGuild_filter_key {g g' : String} (n : String) (hne : g ≠ g') (l : List Row) :
    (l.filter (fun r => !keyIs g n r)).filter (inGuild g') = l.filter (inGuild g') := by
  induction l with
  | nil => rfl
  | cons x xs ih =>
    by_cases hk : keyIs g n x = true
    · have hx : inGuild g' x = false := inGuild_of_key hne hk
      simp [List.filter_cons, hk, hx, ih]
    · simp only [Bool.not_eq_true] at hk
      simp only [List.filter_cons, hk, Bool.not_false, if_true, ih]

theorem filter_inGuild_map_editRow {g g' : String} (n t r : String) (hne : g ≠ g')
    (l : List Row) :
    (l.map (editRow g n t r)).filter (inGuild g') = l.filter (inGuild g') := by
  induction l with
  | nil => rfl
  | cons x xs ih =>
    by_cases hk : keyIs g n x = true
    · have hx : inGuild g' x = false := inGuild_of_key hne hk
      have hx' : inGuild g' (setFields t r x) = false := hx
      simp [editRow, hk, List.filter_cons, hx, hx', ih]
    · simp only [Bool.not_eq_true] at hk
      simp only [List.map_cons, editRow, hk, List.filter_cons]
      rw [ih]
      rfl

theorem filter_inGuild_updateFirst {g g' : String} (n t r : String) (hne : g ≠ g')
    (l : List Row) :
    (updateFirst (keyIs g n) (setFields t r) l).filter (inGuild g') = l.filter (inGuild g') := by
  induction l with
  | nil => rfl
  | cons x xs ih =>
    by_cases hk : keyIs g n x = true
    · have hx : inGuild g' x = false := inGuild_of_key hne hk
      have hx' : inGuild g' (setFields t r x) = false := hx
      simp [updateFirst, hk, List.filter_cons, hx, hx']
    · simp only [Bool.not_eq_true] at hk
      simp [updateFirst, hk, List.filter_cons, ih]

theorem add_other_guild (st : Store) {g g' : String} (n t r : String) (now : Nat)
    (hne : g ≠ g') :
    (add st g n t r now).store.rows.filter (inGuild g') = st.rows.filter (inGuild g') := by
  by_cases h : ∃ x ∈ st.rows, x.guildId = g ∧ x.name = n
  · have hs : (getByName st g n).isSome = true := getByName_isSome_iff.mpr h
    have : (add st g n t r now).store = st := by
      unfold add
      cases st.type <;> simp [hs]
    rw [this]
  · rw [(add_absent st g n t r now h).2]
    simp [List.filter_append, List.filter_cons, inGuild, hne]

theorem remove_other_guild (st : Store) {g g' : String} (n : String) (hne : g ≠ g') :
    (remove st g n).store.rows.filter (inGuild g') = st.rows.filter (inGuild g') := by
  unfold remove
  cases st.type
  · by_cases hi : (getByName st g n).isSome = true
    · simp only [hi, Bool.not_true, deleteByName]
      exact filter_inGuild_filter_key n hne st.rows
    · simp only [hi]
      rfl
  · by_cases hc : (deleteOne st g n).2 = 0
    · simp only [hc, if_true]
      exact filter_inGuild_eraseP n hne st.rows
    · simp only [hc, if_false]
      exact filter_inGuild_eraseP n hne st.rows

theorem edit_other_guild (st : Store) {g g' : String} (n t r : String) (hne : g ≠ g') :
    (edit st g n t r).store.rows.filter (inGuild g') = st.rows.filter (inGuild g') := by
  unfold edit
  cases st.type
  · by_cases hi : (getByName st g n).isSome = true
    · simp only [hi, Bool.not_true, updateByName]
      exact filter_inGuild_map_editRow n t r hne st.rows
    · simp only [hi]
      rfl
  · by_cases hc : (updateOne st g n t r).2 = 0
    · simp only [hc, if_true]
      exact filter_inGuild_updateFirst n t r hne st.rows
    · simp only [hc, if_false]
      exact filter_inGuild_updateFirst n t r hne st.rows

theorem list_congr {st st' : Store} (g : String) (hty : st'.type = st.type)
    (h : st'.rows.filter (inGuild g) = st.rows.filter (inGuild g)) : list st' g = list st g := by
  rw [list_eq, list_eq, h, hty]

theorem findMatch_congr (E : RegExpEngine) {st st' : Store} (g : String)
    (h : list st' g = list st g) (m : String) (mode : Option String) :
    findMatch E st' g m mode = findMatch E st g m mode := by
  unfold findMatch
  rw [h]

/-! ## The two kinds of store side by side -/

theorem add_present (st : Store) (g n t r : String) (now : Nat)
    (h : ∃ x ∈ st.rows, x.guildId = g ∧ x.name = n) :
    (add st g n t r now).result = .error "A response with that name already exists." ∧
    (add st g n t r now).store = st := by
  have hs : (getByName st g n).isSome = true := getByName_isSome_iff.mpr h
  unfold add
  cases st.type <;> simp [hs]

theorem add_congr {st₁ st₂ : Store} (g n t r : String) (now : Nat)
    (hr : st₁.rows = st₂.rows) (hs : st₁.seq = st₂.seq) :
    (add st₁ g n t r now).result = (add st₂ g n t r now).result ∧
    (add st₁ g n t r now).store.rows = (add st₂ g n t r now).store.rows ∧
    (add st₁ g n t r now).store.seq = (add st₂ g n t r now).store.seq := by
  by_cases h : ∃ x ∈ st₁.rows, x.guildId = g ∧ x.name = n
  · have h₁ := add_present st₁ g n t r now h
    have h₂ := add_present st₂ g n t r now (hr ▸ h)
    rw [h₁.1, h₁.2, h₂.1, h₂.2]
    exact ⟨rfl, hr, hs⟩
  · have h₁ := add_absent st₁ g n t r now h
    have h₂ := add_absent st₂ g n t r now (hr ▸ h)
    rw [h₁.1, h₁.2, h₂.1, h₂.2]
    simp [hr, hs]

theorem remove_congr {st₁ st₂ : Store} (g n : String)
    (hr : st₁.rows = st₂.rows) (hs : st₁.seq = st₂.seq) (hu : UniqueIndex st₁) :
    (remove st₁ g n).result = (remove st₂ g n).result ∧
    (remove st₁ g n).store.rows = (remove st₂ g n).store.rows ∧
    (remove st₁ g n).store.seq = (remove st₂ g n).store.seq := by
  have hu₂ : UniqueIndex st₂ := by
    unfold UniqueIndex at hu ⊢
    rw [← hr]
    exact hu
  by_cases h : ∃ x ∈ st₁.rows, x.guildId = g ∧ x.name = n
  · have h₁ := remove_present st₁ g n hu h
    have h₂ := remove_present st₂ g n hu₂ (hr ▸ h)
    rw [h₁.1, h₁.2, h₂.1, h₂.2]
    simp [hr, hs]
  · have h₁ := remove_absent st₁ g n h
    have h₂ := remove_absent st₂ g n (hr ▸ h)
    rw [h₁.1, h₁.2, h₂.1, h₂.2]
    exact ⟨rfl, hr, hs⟩

theorem edit_congr {st₁ st₂ : Store} (g n t r : String)
    (hr : st₁.rows = st₂.rows) (hs : st₁.seq = st₂.seq) (hu : UniqueIndex st₁) :
    (edit st₁ g n t r).result = (edit st₂ g n t r).result ∧
    (edit st₁ g n t r).store.rows = (edit st₂ g n t r).store.rows ∧
    (edit st₁ g n t r).store.seq = (edit st₂ g n t r).store.seq := by
  have hu₂ : UniqueIndex st₂ := by
    unfold UniqueIndex at hu ⊢
    rw [← hr]
    exact hu
  by_cases h : ∃ x ∈ st₁.rows, x.guildId = g ∧ x.name = n
  · have h₁ := edit_present st₁ g n t r hu h
    have h₂ := edit_present st₂ g n t r hu₂ (hr ▸ h)
    rw [h₁.1, h₁.2, h₂.1, h₂.2]
    simp [hr, hs]
  · have h₁ := edit_absent st₁ g n t r h
    have h₂ := edit_absent st₂ g n t r (hr ▸ h)
    rw [h₁.1, h₁.2, h₂.1, h₂.2]
    exact ⟨rfl, hr, hs⟩

theorem eq_of_map_createdAt_eq : ∀ {l₁ l₂ : List Row},
    l₁.map Row.createdAt = l₂.map Row.createdAt →
    (∀ x ∈ l₁, ∀ y ∈ l₂, x.createdAt = y.createdAt → x = y) → l₁ = l₂
  | [], [], _, _ => rfl
  | [], _ :: _, h, _ => by simp at h
  | _ :: _, [], h, _ => by simp at h
  | x :: xs, y :: ys, h, hinj => by
    simp only [List.map_cons, List.cons.injEq] at h
    have hxy : x = y := hinj x (List.mem_cons_self x xs) y (List.mem_cons_self y ys) h.1
    have hrest : xs = ys :=
      eq_of_map_createdAt_eq h.2
        (fun a ha b hb => hinj a (List.mem_cons_of_mem x ha) b (List.mem_cons_of_mem y hb))
    rw [hxy, hrest]

theorem sorted_listing_unique {l₁ l₂ : List Row} (hp : l₁.Perm l₂)
    (h₁ : l₁.Pairwise newerFirst) (h₂ : l₂.Pairwise newerFirst)
    (hd : (l₂.map Row.createdAt).Nodup) : l₁ = l₂ := by
  have hm : l₁.map Row.createdAt = l₂.map Row.createdAt := by
    apply List.eq_of_perm_of_sorted (r := (· ≥ ·)) (hp.map _)
    · exact List.pairwise_map.mpr h₁
    · exact List.pairwise_map.mpr h₂
  apply eq_of_map_createdAt_eq hm
  intro x hx y hy hxy
  exact List.inj_on_of_nodup_map hd (hp.mem_iff.mp hx) hy hxy

theorem listing_forced {st : Store} {g : String} {l : List Row}
    (hp : l.Perm (st.rows.filter (inGuild g))) (hs : l.Pairwise newerFirst)
    (hd : ((st.rows.filter (inGuild g)).map Row.createdAt).Nodup) : l = list st g := by
  have hd' : ((list st g).map Row.createdAt).Nodup :=
    ((list_perm st g).map Row.createdAt).nodup_iff.mpr hd
  exact sorted_listing_unique (hp.trans (list_perm st g).symm) hs (list_sorted st g) hd'

/-! ## After a remove -/

theorem remove_ok_present (st : Store) (g n : String) (h : (remove st g n).result = .ok ()) :
    ∃ x ∈ st.rows, x.guildId = g ∧ x.name = n := by
  by_contra hne
  rw [(remove_absent st g n hne).1] at h
  cases h

theorem remove_gone (st : Store) (g n : String) (hu : UniqueIndex st)
    (h : (remove st g n).result = .ok ()) :
    ¬ ∃ x ∈ (remove st g n).store.rows, x.guildId = g ∧ x.name = n := by
  have hp := remove_present st g n hu (remove_ok_present st g n h)
  rintro ⟨y, hy, hyk⟩
  rw [hp.2, ← filter_not_key_eq_eraseP g n hu, List.mem_filter] at hy
  simp [keyIs, hyk.1, hyk.2] at hy

theorem findMatch_mem (E : RegExpEngine) (st : Store) (g m : String) (mode : Option String)
    (r : Row) (h : findMatch E st g m mode = .ok (some r)) : r ∈ st.rows ∧ r.guildId = g := by
  have h' : findMatch E st g m (some (mode.getD "exact")) = .ok (some r) := h
  have hs := findMatch_some_spec E st g m _ r h'
  exact ⟨hs.1, hs.2.1⟩

theorem greetStore_eq (ty : StoreType) (now : Nat) :
    greetStore ty now = ⟨ty, [⟨1, "g1", "greet", "hello", "Hi there!", now⟩], 1⟩ := by
  unfold greetStore
  cases ty <;> rfl

theorem list_greetStore (ty : StoreType) (now : Nat) :
    list (greetStore ty now) "g1" = [⟨1, "g1", "greet", "hello", "Hi there!", now⟩] := by
  rw [greetStore_eq, list_eq]
  cases ty <;> simp [inGuild, readOrder]

theorem findMatch_unknown_mode (E : RegExpEngine) (st : Store) (g m mode : String)
    (h₁ : mode ≠ "exact") (h₂ : mode ≠ "includes") (h₃ : mode ≠ "regex") :
    findMatch E st g m (some mode) = .ok none := by
  rw [findMatch_eq_find]
  congr 1
  apply List.find?_eq_none.mpr
  intro x _
  simp [triggerMatches, h₁, h₂, h₃]

/-! ## Different clock readings give different createdAt values -/

theorem frame_stamps {g n : String} {l l' : List Row}
    (h : List.Forall₂ (EditFrame g n) l l') :
    l'.map (fun r => (r.guildId, r.createdAt)) = l.map (fun r => (r.guildId, r.createdAt)) := by
  induction h with
  | nil => rfl
  | cons hab _ ih => simp [List.map_cons, ih, hab.2.1, hab.2.2.2.1]

theorem guild_createdAt_nodup {st : Store} (g : String) (hd : (stamps st).Nodup) :
    ((st.rows.filter (inGuild g)).map Row.createdAt).Nodup := by
  have hsub : ((st.rows.filter (inGuild g)).map (fun r => (r.guildId, r.createdAt))).Nodup :=
    hd.sublist ((List.filter_sublist _).map _)
  have hl : (st.rows.filter (inGuild g)).Nodup := List.Nodup.of_map _ hsub
  apply List.Nodup.map_on _ hl
  intro x hx y hy hxy
  have hgx : x.guildId = g := by simpa [inGuild] using (List.mem_filter.mp hx).2
  have hgy : y.guildId = g := by simpa [inGuild] using (List.mem_filter.mp hy).2
  apply List.inj_on_of_nodup_map hsub hx hy
  simp only [Prod.mk.injEq]
  exact ⟨hgx.trans hgy.symm, hxy⟩

theorem list_agree {st₁ st₂ : Store} (g : String) (hr : st₁.rows = st₂.rows)
    (hd : (stamps st₁).Nodup) : list st₁ g = list st₂ g := by
  have h₂ : (list st₂ g).Perm (st₁.rows.filter (inGuild g)) := by
    rw [hr]
    exact list_perm st₂ g
  apply sorted_listing_unique ((list_perm st₁ g).trans h₂.symm) (list_sorted _ _)
    (list_sorted _ _)
  exact (h₂.map Row.createdAt).nodup_iff.mpr (guild_createdAt_nodup g hd)

theorem run_congr (E : RegExpEngine) (q : Request) {st₁ st₂ : Store}
    (hr : st₁.rows = st₂.rows) (hs : st₁.seq = st₂.seq) (hu : UniqueIndex st₁)
    (hl : q.isWrite = true ∨ ∀ g, list st₁ g = list st₂ g) :
    (q.run E st₁).2 = (q.run E st₂).2 ∧
    (q.run E st₁).1.rows = (q.run E st₂).1.rows ∧
    (q.run E st₁).1.seq = (q.run E st₂).1.seq ∧
    UniqueIndex (q.run E st₁).1 := by
  cases q with
  | add g n t r now =>
    have h := add_congr g n t r now hr hs
    exact ⟨by simp only [Request.run, h.1], h.2.1, h.2.2, add_unique st₁ g n t r now hu⟩
  | edit g n t r =>
    have h := edit_congr g n t r hr hs hu
    exact ⟨by simp only [Request.run, h.1], h.2.1, h.2.2, edit_unique st₁ g n t r hu⟩
  | remove g n =>
    have h := remove_congr g n hr hs hu
    exact ⟨by simp only [Request.run, h.1], h.2.1, h.2.2, remove_unique st₁ g n hu⟩
  | list g =>
    have hl' : ∀ g, list st₁ g = list st₂ g := by
      rcases hl with hw | hl
      · simp [Request.isWrite] at hw
      · exact hl
    exact ⟨by simp only [Request.run, hl' g], hr, hs, hu⟩
  | findMatch g content mode =>
    have hl' : ∀ g, list st₁ g = list st₂ g := by
      rcases hl with hw | hl
      · simp [Request.isWrite] at hw
      · exact hl
    have hf : findMatch E st₁ g content mode = findMatch E st₂ g content mode := by
      unfold findMatch
      rw [hl' g]
    simp only [Request.run, hf]
    cases findMatch E st₂ g content mode with
    | ok v => exact ⟨rfl, hr, hs, hu⟩
    | error e => exact ⟨rfl, hr, hs, hu⟩

theorem run_stamps (E : RegExpEngine) (q : Request) (qs : List Request) (st : Store)
    (hd : (stamps st).Nodup) (hc : (clockReadings (q :: qs)).Nodup)
    (hfresh : ∀ c ∈ stamps st, c ∉ clockReadings (q :: qs)) :
    (stamps (q.run E st).1).Nodup ∧ (clockReadings qs).Nodup ∧
    ∀ c ∈ stamps (q.run E st).1, c ∉ clockReadings qs := by
  cases q with
  | add g n t r now =>
    simp only [clockReadings, List.nodup_cons] at hc
    simp only [clockReadings, List.mem_cons, not_or] at hfresh
    simp only [Request.run]
    by_cases h : ∃ x ∈ st.rows, x.guildId = g ∧ x.name = n
    · rw [(add_present st g n t r now h).2]
      exact ⟨hd, hc.2, fun c hcm => (hfresh c hcm).2⟩
    · rw [(add_absent st g n t r now h).2]
      refine ⟨?_, hc.2, ?_⟩
      · simp only [stamps, List.map_append, List.map_cons, List.map_nil]
        rw [List.nodup_append]
        refine ⟨hd, List.nodup_singleton _, ?_⟩
        intro c hc₁ hc₂
        rw [List.mem_singleton] at hc₂
        exact (hfresh c hc₁).1 hc₂
      · intro c hcm
        simp only [stamps, List.map_append, List.map_cons, List.map_nil, List.mem_append,
          List.mem_singleton] at hcm
        rcases hcm with hcm | hcm
        · exact (hfresh c hcm).2
        · rw [hcm]
          exact hc.1
  | edit g n t r =>
    have hm : stamps (edit st g n t r).store = stamps st :=
      frame_stamps (edit_rows_frame st g n t r)
    simp only [Request.run, hm]
    exact ⟨hd, hc, hfresh⟩
  | remove g n =>
    have hsub : (stamps (remove st g n).store).Sublist (stamps st) :=
      (remove_rows_sublist st g n).map _
    simp only [Request.run]
    exact ⟨hd.sublist hsub, hc, fun c hcm => hfresh c (hsub.subset hcm)⟩
  | list g =>
    simp only [Request.run]
    exact ⟨hd, hc, hfresh⟩
  | findMatch g content mode =>
    have hst : (Request.run E st (.findMatch g content mode)).1 = st := by
      simp only [Request.run]
      cases findMatch E st g content mode <;> rfl
    rw [hst]
    exact ⟨hd, hc, hfresh⟩

theorem serve_congr_writes (E : RegExpEngine) (reqs : List Request) :
    ∀ st₁ st₂ : Store, st₁.rows = st₂.rows → st₁.seq = st₂.seq → UniqueIndex st₁ →
      (∀ q ∈ reqs, q.isWrite = true) → serve E st₁ reqs = serve E st₂ reqs := by
  induction reqs with
  | nil => intro _ _ _ _ _ _; rfl
  | cons q qs ih =>
    intro st₁ st₂ hr hs hu hw
    have h := run_congr E q hr hs hu (Or.inl (hw q (List.mem_cons_self q qs)))
    simp only [serve, h.1]
    rw [ih _ _ h.2.1 h.2.2.1 h.2.2.2 (fun q' hq' => hw q' (List.mem_cons_of_mem q hq'))]

theorem serve_congr_distinct (E : RegExpEngine) (reqs : List Request) :
    ∀ st₁ st₂ : Store, st₁.rows = st₂.rows → st₁.seq = st₂.seq → UniqueIndex st₁ →
      (stamps st₁).Nodup → (clockReadings reqs).Nodup →
      (∀ c ∈ stamps st₁, c ∉ clockReadings reqs) → serve E st₁ reqs = serve E st₂ reqs := by
  induction reqs with
  | nil => intro _ _ _ _ _ _ _ _; rfl
  | cons q qs ih =>
    intro st₁ st₂ hr hs hu hd hc hfresh
    have h := run_congr E q hr hs hu (Or.inr (fun g => list_agree g hr hd))
    have hst := run_stamps E q qs st₁ hd hc hfresh
    simp only [serve, h.1]
    rw [ih _ _ h.2.1 h.2.2.1 h.2.2.2 hst.1 hst.2.1 hst.2.2]

/-! ## The claims -/

/-- C1: for each of the modes `exact`, `includes`, `regex`, `findMatch` returns the first record
of `list g` whose trigger matches the text; it returns `null` exactly when no listed record
matches; and every record listed before the returned one does not match. -/
theorem findMatch_returns_first_match (E : RegExpEngine) (st : Store) (g m mode : String)
    (_hmode : mode = "exact" ∨ mode = "includes" ∨ mode = "regex") :
    findMatch E st g m (some mode)
      = .ok ((list st g).find? (fun r => triggerMatches E mode m r.trigger)) ∧
    (findMatch E st g m (some mode) = .ok none ↔
      ∀ r ∈ list st g, triggerMatches E mode m r.trigger = false) ∧
    (∀ r, findMatch E st g m (some mode) = .ok (some r) →
      triggerMatches E mode m r.trigger = true ∧
      ∃ before after, list st g = before ++ r :: after ∧
        ∀ x ∈ before, triggerMatches E mode m x.trigger = false) := by
  refine ⟨findMatch_eq_find E st g m mode, ?_, ?_⟩
  · rw [findMatch_eq_find]
    simp [List.find?_eq_none]
  · intro r hr
    rw [findMatch_eq_find] at hr
    have hr' : (list st g).find? (fun r => triggerMatches E mode m r.trigger) = some r := by
      injection hr
    obtain ⟨hp, before, after, hl, hb⟩ := List.find?_eq_some.mp hr'
    refine ⟨hp, before, after, hl, ?_⟩
    intro x hx
    simpa using hb x hx

theorem findMatch_returns_first_match_witness :
    ("regex" = "exact" ∨ "regex" = "includes" ∨ "regex" = "regex") ∧
    findMatch literalEngine demoStore "g1" "HELLO" (some "regex")
      = .ok ((list demoStore "g1").find?
          (fun r => triggerMatches literalEngine "regex" "HELLO" r.trigger)) ∧
    (list demoStore "g1").find? (fun r => triggerMatches literalEngine "regex" "HELLO" r.trigger)
      = some ⟨4, "g1", "late", "hello", "Hi again!", 3000⟩ :=
  ⟨by decide,
   (findMatch_returns_first_match literalEngine demoStore "g1" "HELLO" "regex" (by decide)).1,
   by decide⟩

/-- C2: in `regex` mode `findMatch` never throws, and records whose trigger is not a valid
regular expression are skipped without ending the scan: the result is that of the scan over the
same list with those records deleted, so a valid matching trigger placed after an invalid one is
still returned. -/
theorem findMatch_regex_skips_invalid (E : RegExpEngine) (rows : List Row) (m : String) :
    (∃ v, scan E m "regex" rows = .ok v) ∧
    scan E m "regex" rows = scan E m "regex" (rows.filter (validPattern E)) ∧
    (∀ st g, (∃ v, findMatch E st g m (some "regex") = .ok v) ∧
      findMatch E st g m (some "regex")
        = scan E m "regex" ((list st g).filter (validPattern E))) ∧
    (∀ bad good, validPattern E bad = false → triggerMatches E "regex" m good.trigger = true →
      scan E m "regex" (bad :: good :: rows) = .ok (some good)) := by
  refine ⟨⟨_, scan_eq_find E m "regex" rows⟩, scan_filter_valid E m rows, ?_, ?_⟩
  · intro st g
    refine ⟨⟨_, findMatch_eq_find E st g m "regex"⟩, ?_⟩
    simp only [findMatch, Option.getD_some]
    exact scan_filter_valid E m (list st g)
  · intro bad good hbad hgood
    rw [scan_eq_find]
    have hb : triggerMatches E "regex" m bad.trigger = false := by
      unfold validPattern at hbad
      unfold triggerMatches
      cases hc : E.compile bad.trigger with
      | error e => simp
      | ok re => simp [hc] at hbad
    simp [List.find?_cons, hb, hgood]

theorem findMatch_regex_skips_invalid_witness :
    scan literalEngine "hello" "regex"
        [⟨2, "g1", "bad", "(", "oops", 2000⟩, ⟨1, "g1", "greet", "hello", "Hi there!", 1000⟩]
      = .ok (some ⟨1, "g1", "greet", "hello", "Hi there!", 1000⟩) :=
  (findMatch_regex_skips_invalid literalEngine [] "hello").2.2.2
    ⟨2, "g1", "bad", "(", "oops", 2000⟩ ⟨1, "g1", "greet", "hello", "Hi there!", 1000⟩
    (by decide) (by decide)

/-- C3: when the store already holds a record with key `(guildId, name)`, `add` fails with the
duplicate-name error whatever the trigger and the response are, and the store is unchanged. -/
theorem add_duplicate_fails (st : Store) (g n t r : String) (now : Nat)
    (h : ∃ x ∈ st.rows, x.guildId = g ∧ x.name = n) :
    (add st g n t r now).result = .error "A response with that name already exists." ∧
    (add st g n t r now).store = st := by
  have hs : (getByName st g n).isSome = true := getByName_isSome_iff.mpr h
  unfold add
  cases st.type <;> simp [hs]

theorem add_duplicate_fails_witness :
    (∃ x ∈ demoStore.rows, x.guildId = "g1" ∧ x.name = "greet") ∧
    (add demoStore "g1" "greet" "bye" "Bye!" 5000).result
      = .error "A response with that name already exists." ∧
    (add demoStore "g1" "greet" "bye" "Bye!" 5000).store = demoStore :=
  ⟨⟨⟨1, "g1", "greet", "hello", "Hi there!", 1000⟩, by decide, rfl, rfl⟩,
   add_duplicate_fails demoStore "g1" "greet" "bye" "Bye!" 5000
     ⟨⟨1, "g1", "greet", "hello", "Hi there!", 1000⟩, by decide, rfl, rfl⟩⟩

/-- C5: in `exact` mode `findMatch` returns a record if and only if some record of the guild
has a trigger equal to the text, character for character, and any record it returns is a record
of the guild whose trigger equals the text. -/
theorem findMatch_exact_iff (E : RegExpEngine) (st : Store) (g m : String) :
    ((∃ r, findMatch E st g m (some "exact") = .ok (some r)) ↔
      ∃ x ∈ st.rows, x.guildId = g ∧ x.trigger = m) ∧
    (∀ r, findMatch E st g m (some "exact") = .ok (some r) →
      r ∈ st.rows ∧ r.guildId = g ∧ r.trigger = m) ∧
    (∃ v, findMatch E st g m (some "exact") = .ok v) := by
  refine ⟨?_, ?_, ⟨_, findMatch_eq_find E st g m "exact"⟩⟩
  · rw [findMatch_some_iff]
    simp only [triggerMatches_exact]
  · intro r hr
    have h := findMatch_some_spec E st g m "exact" r hr
    exact ⟨h.1, h.2.1, (triggerMatches_exact E m r.trigger).mp h.2.2⟩

theorem findMatch_exact_iff_witness :
    ((⟨4, "g1", "late", "hello", "Hi again!", 3000⟩ : Row) ∈ demoStore.rows ∧
      (⟨4, "g1", "late", "hello", "Hi again!", 3000⟩ : Row).guildId = "g1" ∧
      (⟨4, "g1", "late", "hello", "Hi again!", 3000⟩ : Row).trigger = "hello") ∧
    findMatch literalEngine demoStore "g1" "say hello now" (some "exact") = .ok none ∧
    findMatch literalEngine demoStore "g1" "Hello" (some "exact") = .ok none :=
  ⟨(findMatch_exact_iff literalEngine demoStore "g1" "hello").2.1
    ⟨4, "g1", "late", "hello", "Hi again!", 3000⟩ (by decide), by decide, by decide⟩

/-- C6: in `includes` mode `findMatch` returns a record if and only if some record of the guild
has a trigger that occurs as a contiguous substring of the text, and any record it returns is a
record of the guild whose trigger is a substring of the text. -/
theorem findMatch_includes_iff (E : RegExpEngine) (st : Store) (g m : String) :
    ((∃ r, findMatch E st g m (some "includes") = .ok (some r)) ↔
      ∃ x ∈ st.rows, x.guildId = g ∧ x.trigger.data <:+: m.data) ∧
    (∀ r, findMatch E st g m (some "includes") = .ok (some r) →
      r ∈ st.rows ∧ r.guildId = g ∧ r.trigger.data <:+: m.data) ∧
    (∃ v, findMatch E st g m (some "includes") = .ok v) := by
  refine ⟨?_, ?_, ⟨_, findMatch_eq_find E st g m "includes"⟩⟩
  · rw [findMatch_some_iff]
    simp only [triggerMatches_includes]
  · intro r hr
    have h := findMatch_some_spec E st g m "includes" r hr
    exact ⟨h.1, h.2.1, (triggerMatches_includes E m r.trigger).mp h.2.2⟩

theorem findMatch_includes_iff_witness :
    (⟨4, "g1", "late", "hello", "Hi again!", 3000⟩ : Row) ∈ demoStore.rows ∧
    (⟨4, "g1", "late", "hello", "Hi again!", 3000⟩ : Row).guildId = "g1" ∧
    "hello".data <:+: "say hello now".data :=
  (findMatch_includes_iff literalEngine demoStore "g1" "say hello now").2.1
    ⟨4, "g1", "late", "hello", "Hi again!", 3000⟩ (by decide)

/-- C7: in `regex` mode `findMatch` returns a record if and only if some record of the guild
has a trigger that compiles (`new RegExp(trigger, 'i')` does not throw) and whose compiled
expression tests true on the text, and any record it returns is such a record. -/
theorem findMatch_regex_iff (E : RegExpEngine) (st : Store) (g m : String) :
    ((∃ r, findMatch E st g m (some "regex") = .ok (some r)) ↔
      ∃ x ∈ st.rows, x.guildId = g ∧ ∃ re, E.compile x.trigger = .ok re ∧ re.test m = true) ∧
    (∀ r, findMatch E st g m (some "regex") = .ok (some r) →
      r ∈ st.rows ∧ r.guildId = g ∧ ∃ re, E.compile r.trigger = .ok re ∧ re.test m = true) ∧
    (∃ v, findMatch E st g m (some "regex") = .ok v) := by
  refine ⟨?_, ?_, ⟨_, findMatch_eq_find E st g m "regex"⟩⟩
  · rw [findMatch_some_iff]
    simp only [triggerMatches_regex]
  · intro r hr
    have h := findMatch_some_spec E st g m "regex" r hr
    exact ⟨h.1, h.2.1, (triggerMatches_regex E m r.trigger).mp h.2.2⟩

theorem findMatch_regex_iff_witness :
    (⟨4, "g1", "late", "hello", "Hi again!", 3000⟩ : Row) ∈ demoStore.rows ∧
    (⟨4, "g1", "late", "hello", "Hi again!", 3000⟩ : Row).guildId = "g1" ∧
    ∃ re, literalEngine.compile "hello" = .ok re ∧ re.test "well, HeLLo there" = true :=
  (findMatch_regex_iff literalEngine demoStore "g1" "well, HeLLo there").2.1
    ⟨4, "g1", "late", "hello", "Hi again!", 3000⟩ (by decide)

/-- C4: in every store reachable from the empty store by `add`, `edit` and `remove` calls no
two records share the same `(guildId, name)`; and right after `add(g, n, t, r)` succeeds,
`list(g)` holds exactly one record named `n`, which carries trigger `t` and response `r`. -/
theorem reachable_names_unique (st : Store) (h : Reachable st) :
    st.rows.Pairwise (fun a b => ¬ (a.guildId = b.guildId ∧ a.name = b.name)) ∧
    ∀ (g n t r : String) (now : Nat), (add st g n t r now).result = .ok () →
      (list (add st g n t r now).store g).filter (fun x => decide (x.name = n))
        = [⟨st.seq + 1, g, n, t, r, now⟩] ∧
      getByName (add st g n t r now).store g n = some ⟨st.seq + 1, g, n, t, r, now⟩ ∧
      Reachable (add st g n t r now).store := by
  refine ⟨reachable_unique h, ?_⟩
  intro g n t r now hok
  have habs := add_ok_absent st g n t r now hok
  refine ⟨list_after_add st g n t r now habs, getByName_after_add st g n t r now habs, ?_⟩
  obtain ⟨calls, hc⟩ := h
  refine ⟨calls ++ [Call.add g n t r now], ?_⟩
  rw [add_type, runCalls_append, hc]
  rfl

theorem reachable_names_unique_witness :
    Reachable demoStore ∧
    demoStore.rows.Pairwise (fun a b => ¬ (a.guildId = b.guildId ∧ a.name = b.name)) ∧
    (list (add demoStore "g1" "bye" "goodbye" "See you" 4000).store "g1").filter
        (fun x => decide (x.name = "bye"))
      = [⟨5, "g1", "bye", "goodbye", "See you", 4000⟩] :=
  have hreach : Reachable demoStore :=
    ⟨[Call.add "g1" "greet" "hello" "Hi there!" 1000, Call.add "g1" "bad" "(" "oops" 2000,
      Call.add "g2" "greet" "hello" "Hi from g2" 2500,
      Call.add "g1" "late" "hello" "Hi again!" 3000], by decide⟩
  ⟨hreach, (reachable_names_unique demoStore hreach).1,
   ((reachable_names_unique demoStore hreach).2 "g1" "bye" "goodbye" "See you" 4000
      (by decide)).1⟩

/-- C8, as the code has it: when a guild holds two records with different names and the same
trigger, the second created at a strictly later clock reading than the first, and no other
record of the guild matches the text, `findMatch` on a text that matches the trigger returns
the one with the later `createdAt`. -/
theorem findMatch_later_createdAt_wins (E : RegExpEngine) (st : Store) (g m mode : String)
    (a b : Row) (_ha : a ∈ st.rows) (hb : b ∈ st.rows) (_hga : a.guildId = g)
    (hgb : b.guildId = g) (_hname : a.name ≠ b.name) (_htrig : a.trigger = b.trigger)
    (hclock : a.createdAt < b.createdAt)
    (hmatch : triggerMatches E mode m b.trigger = true)
    (hothers : ∀ x ∈ st.rows, x.guildId = g → x ≠ a → x ≠ b →
      triggerMatches E mode m x.trigger = false) :
    findMatch E st g m (some mode) = .ok (some b) := by
  rw [findMatch_eq_find]
  congr 1
  apply find_newer_of_two (list_sorted st g) (mem_list.mpr ⟨hb, hgb⟩) hmatch hclock
  intro x hx hxa hxb
  have hm := mem_list.mp hx
  exact hothers x hm.1 hm.2 hxa hxb

theorem findMatch_later_createdAt_wins_witness :
    findMatch literalEngine (twoAdds .local 1000 1001) "g1" "hello" (some "exact")
      = .ok (some ⟨2, "g1", "second", "hello", "two", 1001⟩) :=
  findMatch_later_createdAt_wins literalEngine (twoAdds .local 1000 1001) "g1" "hello" "exact"
    ⟨1, "g1", "first", "hello", "one", 1000⟩ ⟨2, "g1", "second", "hello", "two", 1001⟩
    (by decide) (by decide) rfl rfl (by decide) rfl (by decide) (by decide) (by decide)

/-- C8 as stated fails: two records with the same trigger added one after the other while
`Date.now()` reads the same millisecond twice, or reads an earlier value the second time; the
record added first is returned, on either branch. -/
theorem findMatch_most_recent_counterexample :
    (add (Store.empty .local) "g1" "first" "hello" "one" 1000).result = .ok () ∧
    (add (add (Store.empty .local) "g1" "first" "hello" "one" 1000).store
      "g1" "second" "hello" "two" 1000).result = .ok () ∧
    findMatch literalEngine (twoAdds .local 1000 1000) "g1" "hello" (some "exact")
      = .ok (some ⟨1, "g1", "first", "hello", "one", 1000⟩) ∧
    findMatch literalEngine (twoAdds .mongo 1000 1000) "g1" "hello" (some "exact")
      = .ok (some ⟨1, "g1", "first", "hello", "one", 1000⟩) ∧
    findMatch literalEngine (twoAdds .local 2000 1000) "g1" "hello" (some "exact")
      = .ok (some ⟨1, "g1", "first", "hello", "one", 2000⟩) ∧
    findMatch literalEngine (twoAdds .mongo 2000 1000) "g1" "hello" (some "exact")
      = .ok (some ⟨1, "g1", "first", "hello", "one", 2000⟩) := by
  decide

/-- C9: in a reachable store, when a record with key `(guildId, name)` exists, `remove`
succeeds and deletes exactly that one record, and a second `remove` right afterwards fails with
the not-found error and leaves the store unchanged; `remove` fails in this way exactly when no
record with the key exists. -/
theorem remove_twice (st : Store) (g n : String) (h : Reachable st) :
    ((∃ x ∈ st.rows, x.guildId = g ∧ x.name = n) →
      (remove st g n).result = .ok () ∧
      (∃ x before after, st.rows = before ++ x :: after ∧ x.guildId = g ∧ x.name = n ∧
        (remove st g n).store = { st with rows := before ++ after }) ∧
      (remove (remove st g n).store g n).result = .error "No such response." ∧
      (remove (remove st g n).store g n).store = (remove st g n).store) ∧
    ((remove st g n).result = .error "No such response." ↔
      ¬ ∃ x ∈ st.rows, x.guildId = g ∧ x.name = n) ∧
    ((remove st g n).result = .error "No such response." → (remove st g n).store = st) := by
  have hu := reachable_unique h
  have hiff : (remove st g n).result = .error "No such response." ↔
      ¬ ∃ x ∈ st.rows, x.guildId = g ∧ x.name = n := by
    constructor
    · intro he hex
      rw [(remove_present st g n hu hex).1] at he
      cases he
    · intro hne
      exact (remove_absent st g n hne).1
  refine ⟨?_, hiff, fun he => (remove_absent st g n (hiff.mp he)).2⟩
  intro hex
  have hp := remove_present st g n hu hex
  have hgone : ¬ ∃ x ∈ (remove st g n).store.rows, x.guildId = g ∧ x.name = n := by
    rintro ⟨y, hy, hyk⟩
    rw [hp.2, ← filter_not_key_eq_eraseP g n hu, List.mem_filter] at hy
    simp [keyIs, hyk.1, hyk.2] at hy
  refine ⟨hp.1, ?_, remove_absent _ g n hgone⟩
  obtain ⟨x, hx, hxk⟩ := hex
  have hkx : keyIs g n x = true := by simp [keyIs, hxk.1, hxk.2]
  obtain ⟨a, l₁, l₂, _, hpa, hl, he⟩ := List.exists_of_eraseP hx hkx
  refine ⟨a, l₁, l₂, hl, ?_, ?_, ?_⟩
  · simp [keyIs] at hpa
    exact hpa.1
  · simp [keyIs] at hpa
    exact hpa.2
  · rw [hp.2, he]

theorem remove_twice_witness :
    (remove demoStore "g1" "greet").result = .ok () ∧
    (remove (remove demoStore "g1" "greet").store "g1" "greet").result
      = .error "No such response." ∧
    (remove demoStore "g1" "greet").store.rows
      = [⟨2, "g1", "bad", "(", "oops", 2000⟩, ⟨3, "g2", "greet", "hello", "Hi from g2", 2500⟩,
         ⟨4, "g1", "late", "hello", "Hi again!", 3000⟩] :=
  have hreach : Reachable demoStore :=
    ⟨[Call.add "g1" "greet" "hello" "Hi there!" 1000, Call.add "g1" "bad" "(" "oops" 2000,
      Call.add "g2" "greet" "hello" "Hi from g2" 2500,
      Call.add "g1" "late" "hello" "Hi again!" 3000], by decide⟩
  have hex : ∃ x ∈ demoStore.rows, x.guildId = "g1" ∧ x.name = "greet" :=
    ⟨⟨1, "g1", "greet", "hello", "Hi there!", 1000⟩, by decide, rfl, rfl⟩
  ⟨((remove_twice demoStore "g1" "greet" hreach).1 hex).1,
   ((remove_twice demoStore "g1" "greet" hreach).1 hex).2.2.1, by decide⟩

/-- C10: when the record with key `(guildId, name)` exists, `edit` sets its trigger and its
response and leaves its name, guildId and createdAt, and the position of every record in the
newest-first listing, unchanged; every record with another key stays as it was.  When no such
record exists, `edit` fails with the not-found error and changes nothing. -/
theorem edit_changes_trigger_and_response_only (st : Store) (g n t r : String) :
    ((∃ x ∈ st.rows, x.guildId = g ∧ x.name = n) →
      (edit st g n t r).result = .ok () ∧
      (edit st g n t r).store.type = st.type ∧
      (edit st g n t r).store.seq = st.seq ∧
      getByName (edit st g n t r).store g n = (getByName st g n).map (setFields t r) ∧
      List.Forall₂ (EditFrame g n) st.rows (edit st g n t r).store.rows ∧
      (∀ g', List.Forall₂ (EditFrame g n) (list st g') (list (edit st g n t r).store g')) ∧
      (UniqueIndex st →
        (edit st g n t r).store.rows = st.rows.map (editRow g n t r) ∧
        ∀ g', list (edit st g n t r).store g' = (list st g').map (editRow g n t r))) ∧
    ((¬ ∃ x ∈ st.rows, x.guildId = g ∧ x.name = n) →
      (edit st g n t r).result = .error "No such response." ∧
      (edit st g n t r).store = st) := by
  refine ⟨?_, edit_absent st g n t r⟩
  intro hex
  have hres := edit_result_present st g n t r hex
  refine ⟨hres.1, edit_type st g n t r, hres.2, getByName_after_edit st g n t r hex,
    edit_rows_frame st g n t r,
    fun g' => list_frame g' (edit_type st g n t r) (edit_rows_frame st g n t r), ?_⟩
  intro hu
  have hp := (edit_present st g n t r hu hex).2
  refine ⟨by rw [hp], ?_⟩
  intro g'
  rw [hp]
  exact list_map_editRow st g n t r g'

theorem edit_changes_trigger_and_response_only_witness :
    (edit demoStore "g1" "greet" "howdy" "Howdy!").result = .ok () ∧
    getByName (edit demoStore "g1" "greet" "howdy" "Howdy!").store "g1" "greet"
      = some ⟨1, "g1", "greet", "howdy", "Howdy!", 1000⟩ ∧
    (edit demoStore "g1" "nobody" "howdy" "Howdy!").result = .error "No such response." ∧
    (edit demoStore "g1" "nobody" "howdy" "Howdy!").store = demoStore :=
  have hex : ∃ x ∈ demoStore.rows, x.guildId = "g1" ∧ x.name = "greet" :=
    ⟨⟨1, "g1", "greet", "hello", "Hi there!", 1000⟩, by decide, rfl, rfl⟩
  have hne : ¬ ∃ x ∈ demoStore.rows, x.guildId = "g1" ∧ x.name = "nobody" := by decide
  ⟨((edit_changes_trigger_and_response_only demoStore "g1" "greet" "howdy" "Howdy!").1 hex).1,
   ((edit_changes_trigger_and_response_only demoStore "g1" "greet" "howdy" "Howdy!").1
      hex).2.2.2.1,
   (edit_changes_trigger_and_response_only demoStore "g1" "nobody" "howdy" "Howdy!").2 hne⟩

/-- C11: `list(g)` returns exactly the records whose guildId is `g`, each as often as it is
stored and none from another guild, the empty list when there are none, in an order in which
createdAt never increases from one record to the next. -/
theorem list_exactly_guild_newest_first (st : Store) (g : String) :
    (list st g).Perm (st.rows.filter (fun r => decide (r.guildId = g))) ∧
    (∀ r, r ∈ list st g ↔ r ∈ st.rows ∧ r.guildId = g) ∧
    (∀ r, (list st g).count r = if r.guildId = g then st.rows.count r else 0) ∧
    ((∀ r ∈ st.rows, r.guildId ≠ g) → list st g = []) ∧
    (list st g).Pairwise (fun a b => b.createdAt ≤ a.createdAt) := by
  refine ⟨list_perm st g, fun r => mem_list, ?_, ?_, list_sorted st g⟩
  · intro r
    rw [(list_perm st g).count_eq r]
    by_cases hg : r.guildId = g
    · have hp : inGuild g r = true := by simp [inGuild, hg]
      rw [if_pos hg, List.count_filter hp]
    · rw [if_neg hg]
      apply List.count_eq_zero_of_not_mem
      intro hmem
      have := (List.mem_filter.mp hmem).2
      simp [inGuild, hg] at this
  · intro hnone
    apply List.eq_nil_iff_forall_not_mem.mpr
    intro r hr
    have hm := mem_list.mp hr
    exact hnone r hm.1 hm.2

theorem list_exactly_guild_newest_first_witness :
    list demoStore "g1"
      = [⟨4, "g1", "late", "hello", "Hi again!", 3000⟩, ⟨2, "g1", "bad", "(", "oops", 2000⟩,
         ⟨1, "g1", "greet", "hello", "Hi there!", 1000⟩] ∧
    list demoStore "g3" = [] ∧
    (list demoStore "g1").Pairwise (fun a b => b.createdAt ≤ a.createdAt) :=
  ⟨by decide,
   (list_exactly_guild_newest_first demoStore "g3").2.2.2.1 (by decide),
   (list_exactly_guild_newest_first demoStore "g1").2.2.2.2⟩

/-- C12: guild isolation.  For distinct guilds `g` and `g'`, an `add`, `edit` or `remove` call
addressed to `g`, whether it succeeds or throws, leaves `list(g')` unchanged, and with it the
result of `findMatch(g', m, mode)` for every text and every mode. -/
theorem guild_isolation (E : RegExpEngine) (st : Store) (g g' : String) (hne : g ≠ g') :
    (∀ (n t r : String) (now : Nat),
      list (add st g n t r now).store g' = list st g' ∧
      ∀ m mode, findMatch E (add st g n t r now).store g' m mode = findMatch E st g' m mode) ∧
    (∀ n t r : String,
      list (edit st g n t r).store g' = list st g' ∧
      ∀ m mode, findMatch E (edit st g n t r).store g' m mode = findMatch E st g' m mode) ∧
    (∀ n : String,
      list (remove st g n).store g' = list st g' ∧
      ∀ m mode, findMatch E (remove st g n).store g' m mode = findMatch E st g' m mode) := by
  refine ⟨?_, ?_, ?_⟩
  · intro n t r now
    have hl := list_congr g' (add_type st g n t r now) (add_other_guild st n t r now hne)
    exact ⟨hl, fun m mode => findMatch_congr E g' hl m mode⟩
  · intro n t r
    have hl := list_congr g' (edit_type st g n t r) (edit_other_guild st n t r hne)
    exact ⟨hl, fun m mode => findMatch_congr E g' hl m mode⟩
  · intro n
    have hl := list_congr g' (remove_type st g n) (remove_other_guild st n hne)
    exact ⟨hl, fun m mode => findMatch_congr E g' hl m mode⟩

theorem guild_isolation_witness :
    "g1" ≠ "g2" ∧
    list (remove demoStore "g1" "greet").store "g2" = list demoStore "g2" ∧
    list (add demoStore "g1" "greet" "hello" "again" 9000).store "g2" = list demoStore "g2" ∧
    findMatch literalEngine (edit demoStore "g1" "greet" "bye" "Bye!").store "g2" "hello"
        (some "exact")
      = findMatch literalEngine demoStore "g2" "hello" (some "exact") :=
  ⟨by decide,
   ((guild_isolation literalEngine demoStore "g1" "g2" (by decide)).2.2 "greet").1,
   ((guild_isolation literalEngine demoStore "g1" "g2" (by decide)).1
      "greet" "hello" "again" 9000).1,
   ((guild_isolation literalEngine demoStore "g1" "g2" (by decide)).2.1
      "greet" "bye" "Bye!").2 "hello" (some "exact")⟩

/-- C13, as the code has it: started on an empty store and given the same clock readings, the
`local` branch and the `mongo` branch give every call the same outcome (the same success or the
same error message, the same sequence of (name, trigger, response) from `list`, the same record
from `findMatch`) provided no two `add` calls addressed to the same guild read the same clock
value.  Without that proviso the outcomes of `add`, `edit` and `remove` still agree.  Under the
proviso the listing does not depend on how a database orders records of equal createdAt:
every ordering of the records of a guild by non-increasing createdAt is the one of `list` when
their createdAt values differ. -/
theorem backends_agree_distinct_clock (E : RegExpEngine) (reqs : List Request) :
    ((clockReadings reqs).Nodup →
      serve E (Store.empty .local) reqs = serve E (Store.empty .mongo) reqs) ∧
    ((∀ q ∈ reqs, q.isWrite = true) →
      serve E (Store.empty .local) reqs = serve E (Store.empty .mongo) reqs) ∧
    (∀ (st : Store) (g : String) (l : List Row),
      l.Perm (st.rows.filter (inGuild g)) → l.Pairwise newerFirst →
      ((st.rows.filter (inGuild g)).map Row.createdAt).Nodup → l = list st g) := by
  refine ⟨?_, ?_, fun _ _ _ hp hs hd => listing_forced hp hs hd⟩
  · intro hc
    exact serve_congr_distinct E reqs _ _ rfl rfl List.Pairwise.nil List.nodup_nil hc
      (fun c hcm => by simp [stamps, Store.empty] at hcm)
  · intro hw
    exact serve_congr_writes E reqs _ _ rfl rfl List.Pairwise.nil hw

theorem backends_agree_distinct_clock_witness :
    (clockReadings demoRequests).Nodup ∧
    serve literalEngine (Store.empty .local) demoRequests
      = serve literalEngine (Store.empty .mongo) demoRequests ∧
    serve literalEngine (Store.empty .mongo) demoRequests
      = [.done, .done, .threw "A response with that name already exists.", .done,
         .rows [("loud", "hello", "HI!"), ("greet", "hello", "Hi again!")],
         .found (some ("loud", "hello", "HI!")),
         .found (some ("loud", "hello", "HI!")),
         .done, .threw "No such response.",
         .found (some ("greet", "hello", "Hi again!"))] :=
  ⟨by decide, (backends_agree_distinct_clock literalEngine demoRequests).1 (by decide),
   by decide⟩

/-- C13 as stated fails: `zeta` and then `alpha` are added to one guild with the same trigger
while `Date.now()` reads the same value.  The `local` branch lists the two in the order of their
names, `alpha` first, and `findMatch` returns `alpha`; the `mongo` branch, when MongoDB returns
documents of equal createdAt as inserted, lists `zeta` first and `findMatch` returns `zeta`. -/
theorem backends_differ_on_equal_clock :
    serve literalEngine (Store.empty .local) tieRequests
      = [.done, .done, .rows [("alpha", "hello", "A"), ("zeta", "hello", "Z")],
         .found (some ("alpha", "hello", "A"))] ∧
    serve literalEngine (Store.empty .mongo) tieRequests
      = [.done, .done, .rows [("zeta", "hello", "Z"), ("alpha", "hello", "A")],
         .found (some ("zeta", "hello", "Z"))] ∧
    serve literalEngine (Store.empty .local) tieRequests
      ≠ serve literalEngine (Store.empty .mongo) tieRequests := by
  decide

/-- C14: the concrete scenario.  On an empty store, after
`add('g1', 'greet', 'hello', 'Hi there!')`, `findMatch('g1', 'hello', 'exact')`,
`findMatch('g1', 'say hello now', 'includes')` and `findMatch('g1', 'HELLO', 'regex')` all return
the `greet` record (the last one given that the host's `/hello/i` tests true on `HELLO`); after
`remove('g1', 'greet')`, `findMatch('g1', 'hello', 'exact')` returns no match.  In general, in a
store that satisfies the unique index, after `remove(g, n)` succeeds `findMatch` on guild `g`
never returns a record named `n`. -/
theorem greet_scenario (E : RegExpEngine) (ty : StoreType) (now : Nat)
    (hre : ∃ re, E.compile "hello" = .ok re ∧ re.test "HELLO" = true) :
    (add (Store.empty ty) "g1" "greet" "hello" "Hi there!" now).result = .ok () ∧
    findMatch E (greetStore ty now) "g1" "hello" (some "exact")
      = .ok (some ⟨1, "g1", "greet", "hello", "Hi there!", now⟩) ∧
    findMatch E (greetStore ty now) "g1" "say hello now" (some "includes")
      = .ok (some ⟨1, "g1", "greet", "hello", "Hi there!", now⟩) ∧
    findMatch E (greetStore ty now) "g1" "HELLO" (some "regex")
      = .ok (some ⟨1, "g1", "greet", "hello", "Hi there!", now⟩) ∧
    (remove (greetStore ty now) "g1" "greet").result = .ok () ∧
    findMatch E (remove (greetStore ty now) "g1" "greet").store "g1" "hello" (some "exact")
      = .ok none ∧
    (∀ (st : Store) (g n : String), UniqueIndex st → (remove st g n).result = .ok () →
      ∀ (m : String) (mode : Option String) (r : Row),
        findMatch E (remove st g n).store g m mode = .ok (some r) → r.name ≠ n) := by
  have hadd : (add (Store.empty ty) "g1" "greet" "hello" "Hi there!" now).result = .ok () :=
    (add_absent (Store.empty ty) "g1" "greet" "hello" "Hi there!" now
      (by simp [Store.empty])).1
  have hex : ∃ x ∈ (greetStore ty now).rows, x.guildId = "g1" ∧ x.name = "greet" := by
    rw [greetStore_eq]
    exact ⟨_, List.mem_singleton.mpr rfl, rfl, rfl⟩
  have hu : UniqueIndex (greetStore ty now) := by
    rw [greetStore_eq]
    exact List.pairwise_singleton _ _
  have hrem := remove_present (greetStore ty now) "g1" "greet" hu hex
  have hrows : (remove (greetStore ty now) "g1" "greet").store.rows = [] := by
    rw [hrem.2, greetStore_eq]
    simp [keyIs]
  refine ⟨hadd, ?_, ?_, ?_, hrem.1, ?_, ?_⟩
  · rw [findMatch_eq_find, list_greetStore]
    simp [triggerMatches]
  · have hinc : triggerMatches E "includes" "say hello now" "hello" = true :=
      (triggerMatches_includes E _ _).mpr (by decide)
    rw [findMatch_eq_find, list_greetStore]
    simp [hinc]
  · have hreg : triggerMatches E "regex" "HELLO" "hello" = true :=
      (triggerMatches_regex E _ _).mpr hre
    rw [findMatch_eq_find, list_greetStore]
    simp [hreg]
  · rw [findMatch_eq_find, list_eq, hrows]
    cases (remove (greetStore ty now) "g1" "greet").store.type <;> rfl
  · intro st g n hust hok m mode r hfound hname
    have hmem := findMatch_mem E _ g m mode r hfound
    exact remove_gone st g n hust hok ⟨r, hmem.1, hmem.2, hname⟩

theorem greet_scenario_witness :
    (∃ re, literalEngine.compile "hello" = .ok re ∧ re.test "HELLO" = true) ∧
    findMatch literalEngine (greetStore .local 1000) "g1" "HELLO" (some "regex")
      = .ok (some ⟨1, "g1", "greet", "hello", "Hi there!", 1000⟩) ∧
    findMatch literalEngine (remove (greetStore .local 1000) "g1" "greet").store "g1" "hello"
        (some "exact")
      = .ok none :=
  have hre : ∃ re, literalEngine.compile "hello" = .ok re ∧ re.test "HELLO" = true :=
    ⟨⟨fun s => includes ⟨s.data.map Char.toLower⟩ ⟨"hello".data.map Char.toLower⟩⟩,
     by rfl, by decide⟩
  ⟨hre, (greet_scenario literalEngine .local 1000 hre).2.2.2.1,
   (greet_scenario literalEngine .local 1000 hre).2.2.2.2.2.1⟩

/-- C15: with a mode string other than `exact`, `includes` and `regex` (such as `Regex` or
`contains`), `findMatch` returns `null` without throwing, whatever is stored; a call without the
mode argument behaves as one with mode `exact`, which is also what the dispatch loop passes when
no mode is configured. -/
theorem findMatch_other_mode (E : RegExpEngine) (st : Store) (g m mode : String)
    (h₁ : mode ≠ "exact") (h₂ : mode ≠ "includes") (h₃ : mode ≠ "regex") :
    findMatch E st g m (some mode) = .ok none ∧
    findMatch E st g m none = findMatch E st g m (some "exact") ∧
    findMatch E st g m (some (MATCH_MODE none)) = findMatch E st g m none :=
  ⟨findMatch_unknown_mode E st g m mode h₁ h₂ h₃, rfl, rfl⟩

theorem findMatch_other_mode_witness :
    ("Regex" ≠ "exact" ∧ "Regex" ≠ "includes" ∧ "Regex" ≠ "regex") ∧
    findMatch literalEngine demoStore "g1" "hello" (some "Regex") = .ok none ∧
    findMatch literalEngine demoStore "g1" "hello" none
      = .ok (some ⟨4, "g1", "late", "hello", "Hi again!", 3000⟩) :=
  ⟨by decide,
   (findMatch_other_mode literalEngine demoStore "g1" "hello" "Regex"
      (by decide) (by decide) (by decide)).1,
   by decide⟩

end ResponseBot
